import Mathlib

/-!
# Producer / consumer bounded buffer (`Concurrency1/concurrency1.c`)

A shallow embedding of the 32-slot buffer of `concurrency1.c` and of the two
thread bodies `produceAnItem` / `consumeAnItem`.

* An `item*` is modelled as `Option item`: `none` is `NULL`, `some x` is a
  pointer to a heap record holding `x`.
* The global `threadBuf` is passed explicitly as a `buffer`.
* An access `threadBuf.items[k]` with `k` outside `0..31` is undefined
  behaviour in C; the embedding returns `none` for it.
-/

namespace Concurrency1

/-! ## Data model -/

/-- The record `struct item` with fields `randomNum` and `waitTime`. -/
structure item where
  randomNum : Int
  waitTime : Int
deriving DecidableEq

/-- The record `struct buffer`, holding `item* items[32]`. -/
structure buffer where
  items : Fin 32 → Option item

/-- Read of `threadBuf.items[k]` for a C `int` index `k`; `none` when `k` is out of bounds. -/
def buffer.read (b : buffer) (k : Int) : Option (Option item) :=
  if h : 0 ≤ k ∧ k < 32 then some (b.items ⟨k.toNat, by omega⟩) else none

/-- Write `threadBuf.items[k] = p` for a C `int` index `k`; `none` when `k` is out of bounds. -/
def buffer.write (b : buffer) (k : Int) (p : Option item) : Option buffer :=
  if h : 0 ≤ k ∧ k < 32 then some ⟨Function.update b.items ⟨k.toNat, by omega⟩ p⟩ else none

/-! ## Buffer operations -/

/-- Body of the loop of `initializeBuffer`, with `n = 32 - i` iterations left:
`for (i; i < 32; i++) threadBuf.items[i] = NULL;`. -/
def initializeBufferFrom : (n : Nat) → (i : Nat) → i + n = 32 → buffer → buffer
  | 0, _, _, b => b
  | n + 1, i, h, b =>
    initializeBufferFrom n (i + 1) (by omega) ⟨Function.update b.items ⟨i, by omega⟩ none⟩

/-- Embedding of `initializeBuffer`: every slot is set to `NULL`. -/
def initializeBuffer (b : buffer) : buffer :=
  initializeBufferFrom 32 0 rfl b

/-- Loop of `isBufFull` with `n = 32 - i` iterations left:
`if (threadBuf.items[i] == NULL) return false;` and `return true` after the loop. -/
def isBufFullFrom (b : buffer) : (n : Nat) → (i : Nat) → i + n = 32 → Bool
  | 0, _, _ => true
  | n + 1, i, h =>
    if b.items ⟨i, by omega⟩ = none then false else isBufFullFrom b n (i + 1) (by omega)

/-- Embedding of `isBufFull`. -/
def isBufFull (b : buffer) : Bool :=
  isBufFullFrom b 32 0 rfl

/-- Loop of `isBufEmpty` with `n = 32 - i` iterations left:
`if (threadBuf.items[i] != NULL) return false;` and `return true` after the loop. -/
def isBufEmptyFrom (b : buffer) : (n : Nat) → (i : Nat) → i + n = 32 → Bool
  | 0, _, _ => true
  | n + 1, i, h =>
    if b.items ⟨i, by omega⟩ ≠ none then false else isBufEmptyFrom b n (i + 1) (by omega)

/-- Embedding of `isBufEmpty`. -/
def isBufEmpty (b : buffer) : Bool :=
  isBufEmptyFrom b 32 0 rfl

/-- Loop of `returnEmptyIndex` with `n = 32 - i` iterations left:
`if (threadBuf.items[i] == NULL) return i;` and `return -1` after the loop. -/
def returnEmptyIndexFrom (b : buffer) : (n : Nat) → (i : Nat) → i + n = 32 → Int
  | 0, _, _ => -1
  | n + 1, i, h =>
    if b.items ⟨i, by omega⟩ = none then (i : Int) else returnEmptyIndexFrom b n (i + 1) (by omega)

/-- Embedding of `returnEmptyIndex`: first empty element of the array, or `-1`. -/
def returnEmptyIndex (b : buffer) : Int :=
  returnEmptyIndexFrom b 32 0 rfl

/-- Loop of `returnFullIndex` with `n = 32 - i` iterations left:
`if (threadBuf.items[i] != NULL) return i;` and `return -1` after the loop. -/
def returnFullIndexFrom (b : buffer) : (n : Nat) → (i : Nat) → i + n = 32 → Int
  | 0, _, _ => -1
  | n + 1, i, h =>
    if b.items ⟨i, by omega⟩ ≠ none then (i : Int) else returnFullIndexFrom b n (i + 1) (by omega)

/-- Embedding of `returnFullIndex`: first full element of the array, or `-1`. -/
def returnFullIndex (b : buffer) : Int :=
  returnFullIndexFrom b 32 0 rfl

/-- Embedding of `addRandomItem`: `index = returnEmptyIndex(); threadBuf.items[index] = i1;`. -/
def addRandomItem (i1 : Option item) (b : buffer) : Option buffer :=
  let index := returnEmptyIndex b
  b.write index i1

/-- Embedding of `removeItem`: `free(threadBuf.items[index]); threadBuf.items[index] = NULL;`.
The heap is not modelled, so `free` only needs the slot to be readable. -/
def removeItem (index : Int) (b : buffer) : Option buffer :=
  match b.read index with
  | none => none
  | some _ => b.write index none

/-- Embedding of `getItem`: stores `returnFullIndex()` through the out-parameter `index`
and returns `threadBuf.items[*index]`. The result pairs the stored index with the
returned pointer. -/
def getItem (b : buffer) : Option (Int × Option item) :=
  let index := returnFullIndex b
  match b.read index with
  | none => none
  | some p => some (index, p)

/-- The consume step on the buffer: `getItem(&indexToConsume)` followed by
`removeItem(indexToConsume)`, as in `consumeAnItem`. Returns the pointer obtained and
the buffer afterwards. -/
def consumeStep (b : buffer) : Option (Option item × buffer) :=
  match getItem b with
  | none => none
  | some (index, p) =>
    match removeItem index b with
    | none => none
    | some b' => some (p, b')

/-! ## Occupancy and contents -/

/-- Number of occupied (non-NULL) slots of the buffer. -/
def occupied (b : buffer) : Nat :=
  ∑ i : Fin 32, if b.items i = none then 0 else 1

/-- The item a slot holds, as a multiset: nothing for NULL, the pointed-to item otherwise. -/
def slotContents : Option item → Multiset item
  | none => 0
  | some x => {x}

/-- The multiset of items held in the slots of the buffer. -/
def held (b : buffer) : Multiset item :=
  ∑ i : Fin 32, slotContents (b.items i)

/-! ## Runs of produce and consume steps -/

/-- A step on the buffer: `produce x` is `addRandomItem` of a pointer to the item `x`
(the pointer `createRandomItem` returns is dereferenced there, so it is not NULL);
`consume` is `getItem` followed by `removeItem`. -/
inductive Op where
  | produce (x : item)
  | consume
deriving DecidableEq

/-- The buffer together with the history of a run: the items inserted so far and the items
the consume steps returned so far (the targets of the pointers `getItem` returned), both
in chronological order. -/
structure RunState where
  buf : buffer
  inserted : List item
  returned : List item

/-- One guarded step: a produce step is taken only when `isBufFull` is false and a consume
step only when `isBufEmpty` is false (the loop conditions of `produceAnItem` and
`consumeAnItem`); `none` when the guard fails or the operation is undefined. -/
def step (s : RunState) : Op → Option RunState
  | Op.produce x =>
    if isBufFull s.buf = true then none
    else
      match addRandomItem (some x) s.buf with
      | none => none
      | some b' => some ⟨b', s.inserted ++ [x], s.returned⟩
  | Op.consume =>
    if isBufEmpty s.buf = true then none
    else
      match consumeStep s.buf with
      | none => none
      | some (p, b') => some ⟨b', s.inserted, s.returned ++ p.toList⟩

/-- A finite sequence of guarded steps. -/
def run : RunState → List Op → Option RunState
  | s, [] => some s
  | s, op :: ops =>
    match step s op with
    | none => none
    | some s' => run s' ops

/-- The state `main` starts from: `initializeBuffer` applied to any prior contents. -/
def start (b0 : buffer) : RunState :=
  ⟨initializeBuffer b0, [], []⟩

/-- Number of produce steps in a sequence. -/
def countProduce : List Op → Nat
  | [] => 0
  | Op.produce _ :: ops => countProduce ops + 1
  | Op.consume :: ops => countProduce ops

/-- Number of consume steps in a sequence. -/
def countConsume : List Op → Nat
  | [] => 0
  | Op.produce _ :: ops => countConsume ops
  | Op.consume :: ops => countConsume ops + 1

/-- The items inserted by the produce steps of a sequence, in order. -/
def insertedItems : List Op → List item
  | [] => []
  | Op.produce x :: ops => x :: insertedItems ops
  | Op.consume :: ops => insertedItems ops

/-! ## The thread bodies -/

/-- Embedding of `itemFirstVal` on the value `r` returned by `rand()`. -/
def itemFirstVal (r : Int) : Int :=
  Int.tmod r (10 + 1)

/-- Embedding of `itemSecondVal` on the value `r` returned by `rand()`. -/
def itemSecondVal (r : Int) : Int :=
  Int.tmod r (9 + 1 - 2) + 2

/-- Embedding of `producerVal` on the value `r` returned by `rand()`. -/
def producerVal (r : Int) : Int :=
  Int.tmod r (7 + 1 - 3) + 3

/-- Embedding of `createRandomItem`. `mallocOk = false` is `malloc` returning NULL; the
field stores through the NULL pointer are then undefined, rendered as `none`. `r2`, `r3`
are the values of the two `rand()` calls. -/
def createRandomItem (mallocOk : Bool) (r2 r3 : Int) : Option item :=
  if mallocOk = true then some ⟨itemFirstVal r2, itemSecondVal r3⟩ else none

/-- The actions of a thread body that matter for synchronisation, in program order. -/
inductive Event where
  /-- Return of `pthread_mutex_lock(&mutex)`. -/
  | mutexLock
  /-- Call of `isBufFull()`, with its result. -/
  | checkFull (r : Bool)
  /-- Call of `isBufEmpty()`, with its result. -/
  | checkEmpty (r : Bool)
  /-- Entry of `pthread_cond_wait`: the mutex is released and the thread suspended. -/
  | condWaitEnter
  /-- Return of `pthread_cond_wait`: the mutex has been re-acquired. -/
  | condWaitReturn
  /-- A `printf` of the given value. -/
  | print (v : Int)
  /-- Call of `sleep(secs)`. -/
  | sleep (secs : Int)
  /-- Call of `addRandomItem`, with the index `returnEmptyIndex` gave. -/
  | insert (index : Int)
  /-- Call of `getItem`, with the index stored and the pointer returned. -/
  | get (index : Int) (p : Option item)
  /-- Call of `removeItem(index)`. -/
  | remove (index : Int)
  /-- Call of `pthread_cond_signal(&condition)`. -/
  | condSignal
  /-- Call of `pthread_mutex_unlock(&mutex)`. -/
  | mutexUnlock
deriving DecidableEq

/-- How a thread body ends. -/
inductive Outcome where
  /-- The body ran to its end, leaving the buffer as given. -/
  | returned (b : buffer)
  /-- The thread is still suspended in `pthread_cond_wait`. -/
  | blocked
  /-- Undefined behaviour: an out-of-bounds slot access or a NULL dereference. -/
  | undefined

/-- Whether the outcome is `blocked`. -/
def Outcome.isBlocked : Outcome → Bool
  | Outcome.blocked => true
  | _ => false

/-- Whether the outcome is `undefined`. -/
def Outcome.isUndefined : Outcome → Bool
  | Outcome.undefined => true
  | _ => false

/-- The loop `while (isBufFull() == true) pthread_cond_wait(&condition, &mutex);` started
with buffer contents `b`. The mutex is released only inside `pthread_cond_wait`, so the
contents change, under the other threads, only there: `wakes` lists the contents found at
each return of `pthread_cond_wait` (a spurious wake-up repeats the contents). The result
is the trace of the loop and the contents at its exit, `none` if the thread is still
suspended when `wakes` is used up. -/
def waitWhileFull : buffer → List buffer → List Event × Option buffer
  | b, [] =>
    if isBufFull b = true then ([Event.checkFull true, Event.condWaitEnter], none)
    else ([Event.checkFull false], some b)
  | b, b' :: rest =>
    if isBufFull b = true then
      (Event.checkFull true :: Event.condWaitEnter :: Event.condWaitReturn ::
        (waitWhileFull b' rest).1, (waitWhileFull b' rest).2)
    else ([Event.checkFull false], some b)

/-- The loop `while (isBufEmpty() == true) pthread_cond_wait(&condition, &mutex);`, with
`wakes` as in `waitWhileFull`. -/
def waitWhileEmpty : buffer → List buffer → List Event × Option buffer
  | b, [] =>
    if isBufEmpty b = true then ([Event.checkEmpty true, Event.condWaitEnter], none)
    else ([Event.checkEmpty false], some b)
  | b, b' :: rest =>
    if isBufEmpty b = true then
      (Event.checkEmpty true :: Event.condWaitEnter :: Event.condWaitReturn ::
        (waitWhileEmpty b' rest).1, (waitWhileEmpty b' rest).2)
    else ([Event.checkEmpty false], some b)

/-- Embedding of `produceAnItem`. `b` is the buffer when the mutex is acquired, `wakes` the
contents at each return of `pthread_cond_wait`, `r1 r2 r3` the values of the three
`rand()` calls and `mallocOk` whether `malloc` succeeds. Returns the trace and the
outcome. -/
def produceAnItem (b : buffer) (wakes : List buffer) (r1 r2 r3 : Int) (mallocOk : Bool) :
    List Event × Outcome :=
  match waitWhileFull b wakes with
  | (tr, none) => (Event.mutexLock :: tr, Outcome.blocked)
  | (tr, some b1) =>
    let randomWaitTime := producerVal r1
    let pre := Event.mutexLock :: tr ++ [Event.print randomWaitTime, Event.sleep randomWaitTime]
    match createRandomItem mallocOk r2 r3 with
    | none => (pre, Outcome.undefined)
    | some i1 =>
      match addRandomItem (some i1) b1 with
      | none => (pre ++ [Event.insert (returnEmptyIndex b1)], Outcome.undefined)
      | some b2 =>
        (pre ++ [Event.insert (returnEmptyIndex b1), Event.condSignal, Event.mutexUnlock],
          Outcome.returned b2)

/-- Embedding of `consumeAnItem`, with `b` and `wakes` as in `produceAnItem`. -/
def consumeAnItem (b : buffer) (wakes : List buffer) : List Event × Outcome :=
  match waitWhileEmpty b wakes with
  | (tr, none) => (Event.mutexLock :: tr, Outcome.blocked)
  | (tr, some b1) =>
    match getItem b1 with
    | none => (Event.mutexLock :: tr, Outcome.undefined)
    | some (indexToConsume, none) =>
      (Event.mutexLock :: tr ++ [Event.get indexToConsume none], Outcome.undefined)
    | some (indexToConsume, some itemToConsume) =>
      let pre := Event.mutexLock :: tr ++
        [Event.get indexToConsume (some itemToConsume), Event.print itemToConsume.randomNum,
          Event.sleep itemToConsume.waitTime, Event.print itemToConsume.waitTime]
      match removeItem indexToConsume b1 with
      | none => (pre ++ [Event.remove indexToConsume], Outcome.undefined)
      | some b2 =>
        (pre ++ [Event.remove indexToConsume, Event.condSignal, Event.mutexUnlock],
          Outcome.returned b2)

/-- Whether the thread holds the mutex after an event, given whether it held it before. -/
def holdsAfter (locked : Bool) : Event → Bool
  | Event.mutexLock => true
  | Event.mutexUnlock => false
  | Event.condWaitEnter => false
  | Event.condWaitReturn => true
  | _ => locked

/-- Whether the thread holds the mutex after a trace, given whether it held it before. -/
def holdsAfterTrace (locked : Bool) : List Event → Bool
  | [] => locked
  | e :: es => holdsAfterTrace (holdsAfter locked e) es

/-- Whether the event is a `sleep`. -/
def Event.isSleep : Event → Bool
  | Event.sleep _ => true
  | _ => false

/-- Whether the event belongs to a wait loop: a check of the loop condition or one of the
two halves of `pthread_cond_wait`. -/
def Event.isWaitLoop : Event → Bool
  | Event.checkFull _ => true
  | Event.checkEmpty _ => true
  | Event.condWaitEnter => true
  | Event.condWaitReturn => true
  | _ => false

/-- Whether some `sleep` of the trace is performed while the thread holds the mutex;
`locked` tells whether the mutex is held at the start of the trace. -/
def sleepsWhileHeld (locked : Bool) : List Event → Bool
  | [] => false
  | e :: es => (locked && e.isSleep) || sleepsWhileHeld (holdsAfter locked e) es

/-! ## Sample buffers used to instantiate the theorems -/

/-- The all-NULL buffer. -/
def emptyBuf : buffer := ⟨fun _ => none⟩

/-- A buffer whose slots 0 and 2 are occupied and all others vacant. -/
def sampleBuf : buffer :=
  ⟨fun i => if i.val = 0 then some ⟨5, 3⟩ else if i.val = 2 then some ⟨7, 4⟩ else none⟩

/-- A buffer whose 32 slots are all occupied. -/
def fullBuf : buffer := ⟨fun _ => some ⟨0, 2⟩⟩

/-- A run in which an item inserted later is returned before one inserted earlier. -/
def sampleOps : List Op :=
  [Op.produce ⟨5, 3⟩, Op.produce ⟨7, 4⟩, Op.consume, Op.produce ⟨1, 2⟩, Op.consume]

/-- The buffer whose slot `i` holds the `i`-th item of `xs` for `m ≤ i < xs.length`, every
other slot being vacant: what `xs.length` insertions into the empty buffer followed by `m`
consume steps leave. -/
def windowBuf (m : Nat) (xs : List item) : buffer :=
  ⟨fun i => if i.val < m then none else xs[i.val]?⟩

/-- Thirty-two different items. -/
def sampleItems : List item :=
  (List.range 32).map (fun n => ⟨(n : Int), 2⟩)

/-! ## Interleaved executions and the mutex -/

/-- Whether the event reads or writes a slot of `threadBuf`. -/
def Event.isSlotAccess : Event → Bool
  | Event.checkFull _ => true
  | Event.checkEmpty _ => true
  | Event.insert _ => true
  | Event.get _ _ => true
  | Event.remove _ => true
  | _ => false

/-- Whether a thread that holds (`locked = true`) or does not hold the mutex keeps to the
locking discipline with the event: a slot access, `pthread_mutex_unlock` and
`pthread_cond_wait` need the mutex held, `pthread_mutex_lock` needs it not held by the
thread itself, and `pthread_cond_wait` returns to a thread that released it. -/
def Event.allowed (locked : Bool) : Event → Bool
  | Event.mutexLock => !locked
  | Event.condWaitReturn => !locked
  | Event.mutexUnlock => locked
  | Event.condWaitEnter => locked
  | Event.checkFull _ => locked
  | Event.checkEmpty _ => locked
  | Event.insert _ => locked
  | Event.get _ _ => locked
  | Event.remove _ => locked
  | _ => true

/-- Whether every event of the trace keeps to the locking discipline; `locked` tells
whether the thread holds the mutex at the start of the trace. -/
def lockDiscipline (locked : Bool) : List Event → Bool
  | [] => true
  | e :: es => e.allowed locked && lockDiscipline (holdsAfter locked e) es

/-- The events of thread `t` in an interleaved execution, a list of events each tagged
with the thread that performs it. -/
def threadTrace (t : Nat) : List (Nat × Event) → List Event
  | [] => []
  | (u, e) :: rest => if u = t then e :: threadTrace t rest else threadTrace t rest

/-- The pthread mutex: its owner after thread `t` performs the event. An acquisition
(`pthread_mutex_lock`, the return of `pthread_cond_wait`) happens only when the mutex
is free, `none` otherwise; a release frees it. -/
def mutexStep (owner : Option Nat) (t : Nat) : Event → Option (Option Nat)
  | Event.mutexLock => if owner = none then some (some t) else none
  | Event.condWaitReturn => if owner = none then some (some t) else none
  | Event.mutexUnlock => some none
  | Event.condWaitEnter => some none
  | _ => some owner

/-- The owner of the mutex after an interleaved execution, `none` when the execution is
not one the mutex admits. -/
def ownerAfter : Option Nat → List (Nat × Event) → Option (Option Nat)
  | owner, [] => some owner
  | owner, (t, e) :: rest =>
    match mutexStep owner t e with
    | none => none
    | some o => ownerAfter o rest

/-- An interleaving of a producer, thread 0, and a consumer, thread 1: the consumer finds
the buffer empty and waits, the producer inserts `{0,2}`, the consumer is woken and takes
it. -/
def sampleSchedule : List (Nat × Event) :=
  [(1, Event.mutexLock), (1, Event.checkEmpty true), (1, Event.condWaitEnter),
    (0, Event.mutexLock), (0, Event.checkFull false), (0, Event.print 3), (0, Event.sleep 3),
    (0, Event.insert 0), (0, Event.condSignal), (0, Event.mutexUnlock),
    (1, Event.condWaitReturn), (1, Event.checkEmpty false), (1, Event.get 0 (some ⟨0, 2⟩)),
    (1, Event.print 0), (1, Event.sleep 2), (1, Event.print 2), (1, Event.remove 0),
    (1, Event.condSignal), (1, Event.mutexUnlock)]

/-- The buffer of `sampleSchedule` after the producer's insertion. -/
def oneItemBuf : buffer :=
  ⟨fun i => if i.val = 0 then some ⟨0, 2⟩ else none⟩

/-! ## The loop of `main` -/

/-- The statement of the loop body of `main` that `main` executes next. -/
inductive MainPc where
  /-- `pthread_create(&producer, NULL, produceAnItem, NULL)`. -/
  | createProducer
  /-- `pthread_create(&consumer, NULL, consumeAnItem, NULL)`. -/
  | createConsumer
  /-- `pthread_join(consumer, NULL)`. -/
  | joinConsumer
deriving DecidableEq

/-- The program state under `main`: the buffer, where `main` stands, the number of
producer threads created whose `produceAnItem` has not returned, the number of times a
producer entered `pthread_cond_wait`, and whether the consumer thread of the current
iteration has been created and has not returned. -/
structure MainState where
  buf : buffer
  pc : MainPc
  producers : Nat
  producerWaits : Nat
  consumerRunning : Bool

/-- A scheduling choice. `main` executes its next statement. A producer or the consumer
acquires the mutex, at `pthread_mutex_lock` or at a return of `pthread_cond_wait`, and
runs until it releases it, at `pthread_mutex_unlock` or in `pthread_cond_wait`; the mutex
makes this stretch atomic for the buffer. `r1 r2 r3` are the producer's `rand()` values. -/
inductive Move where
  | main
  | producer (r1 r2 r3 : Int)
  | consumer

/-- One scheduling step; `none` when the choice is not enabled (no such thread, or
`pthread_join` still waiting for the consumer) or the thread runs into undefined
behaviour. Thread creation and `malloc` succeed. -/
def mainStep (s : MainState) : Move → Option MainState
  | Move.main =>
    match s.pc with
    | MainPc.createProducer =>
      some { s with pc := MainPc.createConsumer, producers := s.producers + 1 }
    | MainPc.createConsumer =>
      some { s with pc := MainPc.joinConsumer, consumerRunning := true }
    | MainPc.joinConsumer =>
      if s.consumerRunning = true then none else some { s with pc := MainPc.createProducer }
  | Move.producer r1 r2 r3 =>
    if s.producers = 0 then none
    else
      match (produceAnItem s.buf [] r1 r2 r3 true).2 with
      | Outcome.returned b2 => some { s with buf := b2, producers := s.producers - 1 }
      | Outcome.blocked => some { s with producerWaits := s.producerWaits + 1 }
      | Outcome.undefined => none
  | Move.consumer =>
    if s.consumerRunning = true then
      match (consumeAnItem s.buf []).2 with
      | Outcome.returned b2 => some { s with buf := b2, consumerRunning := false }
      | Outcome.blocked => some s
      | Outcome.undefined => none
    else none

/-- A finite sequence of scheduling steps. -/
def runMain : MainState → List Move → Option MainState
  | s, [] => some s
  | s, m :: ms =>
    match mainStep s m with
    | none => none
    | some s' => runMain s' ms

/-- The state in which `main` enters its loop, after `initializeBuffer`. -/
def mainInit (b0 : buffer) : MainState :=
  ⟨initializeBuffer b0, MainPc.createProducer, 0, 0, false⟩

/-- Two iterations of the loop of `main`: in the first the consumer runs first and waits,
in the second the producer runs first. -/
def sampleMoves : List Move :=
  [Move.main, Move.main, Move.consumer, Move.producer 0 0 0, Move.consumer, Move.main,
    Move.main, Move.producer 4 5 6, Move.main, Move.consumer, Move.main]

/-- What holds in every state reachable under `main`: no producer has waited, every slot
but slot 0 is vacant, and either one producer has yet to insert into the empty buffer, or
its item sits in slot 0 and awaits the consumer, or the iteration is over. -/
def MainInv (s : MainState) : Prop :=
  s.producerWaits = 0 ∧ (∀ j : Fin 32, j ≠ 0 → s.buf.items j = none) ∧
  ((s.buf.items 0 = none ∧ s.producers = 1 ∧
      ((s.pc = MainPc.createConsumer ∧ s.consumerRunning = false) ∨
        (s.pc = MainPc.joinConsumer ∧ s.consumerRunning = true))) ∨
    (s.buf.items 0 ≠ none ∧ s.producers = 0 ∧
      ((s.pc = MainPc.createConsumer ∧ s.consumerRunning = false) ∨
        (s.pc = MainPc.joinConsumer ∧ s.consumerRunning = true))) ∨
    (s.buf.items 0 = none ∧ s.producers = 0 ∧ s.consumerRunning = false ∧
      (s.pc = MainPc.createProducer ∨ s.pc = MainPc.joinConsumer)))

/-! ## Lemmas on the scanning loops -/

theorem isBufFullFrom_eq_true (b : buffer) :
    ∀ (n i : Nat) (h : i + n = 32),
      isBufFullFrom b n i h = true ↔ ∀ j : Fin 32, i ≤ j.val → b.items j ≠ none := by
  intro n
  induction n with
  | zero =>
    intro i h
    simp only [isBufFullFrom, true_iff]
    intro j hj
    exact absurd j.isLt (by omega)
  | succ n ih =>
    intro i h
    unfold isBufFullFrom
    by_cases hi : b.items ⟨i, by omega⟩ = none
    · simp only [hi, if_true]
      constructor
      · intro hf
        exact absurd hf (by decide)
      · intro hall
        exact absurd hi (hall ⟨i, by omega⟩ (le_refl _))
    · simp only [hi, if_false]
      rw [ih (i + 1) (by omega)]
      constructor
      · intro hall j hj
        by_cases hji : j.val = i
        · have : j = ⟨i, by omega⟩ := Fin.ext hji
          rw [this]
          exact hi
        · exact hall j (by omega)
      · intro hall j hj
        exact hall j (by omega)

theorem isBufEmptyFrom_eq_true (b : buffer) :
    ∀ (n i : Nat) (h : i + n = 32),
      isBufEmptyFrom b n i h = true ↔ ∀ j : Fin 32, i ≤ j.val → b.items j = none := by
  intro n
  induction n with
  | zero =>
    intro i h
    simp only [isBufEmptyFrom, true_iff]
    intro j hj
    exact absurd j.isLt (by omega)
  | succ n ih =>
    intro i h
    unfold isBufEmptyFrom
    by_cases hi : b.items ⟨i, by omega⟩ = none
    · simp only [hi, ne_eq, not_true_eq_false, if_false]
      rw [ih (i + 1) (by omega)]
      constructor
      · intro hall j hj
        by_cases hji : j.val = i
        · have : j = ⟨i, by omega⟩ := Fin.ext hji
          rw [this]
          exact hi
        · exact hall j (by omega)
      · intro hall j hj
        exact hall j (by omega)
    · simp only [hi, ne_eq, not_false_eq_true, if_true]
      constructor
      · intro hf
        exact absurd hf (by decide)
      · intro hall
        exact absurd (hall ⟨i, by omega⟩ (le_refl _)) hi

/-- Characterisation of `isBufFull`. -/
theorem isBufFull_eq_true_iff (b : buffer) :
    isBufFull b = true ↔ ∀ j : Fin 32, b.items j ≠ none := by
  unfold isBufFull
  rw [isBufFullFrom_eq_true]
  constructor
  · intro h j
    exact h j (Nat.zero_le _)
  · intro h j _
    exact h j

/-- Characterisation of `isBufEmpty`. -/
theorem isBufEmpty_eq_true_iff (b : buffer) :
    isBufEmpty b = true ↔ ∀ j : Fin 32, b.items j = none := by
  unfold isBufEmpty
  rw [isBufEmptyFrom_eq_true]
  constructor
  · intro h j
    exact h j (Nat.zero_le _)
  · intro h j _
    exact h j

theorem returnEmptyIndexFrom_spec (b : buffer) :
    ∀ (n i : Nat) (h : i + n = 32), (∃ j : Fin 32, i ≤ j.val ∧ b.items j = none) →
      ∃ k : Fin 32, returnEmptyIndexFrom b n i h = (k.val : Int) ∧ i ≤ k.val ∧
        b.items k = none ∧ ∀ j : Fin 32, i ≤ j.val → j.val < k.val → b.items j ≠ none := by
  intro n
  induction n with
  | zero =>
    intro i h hex
    obtain ⟨j, hj, _⟩ := hex
    exact absurd j.isLt (by omega)
  | succ n ih =>
    intro i h hex
    unfold returnEmptyIndexFrom
    by_cases hi : b.items ⟨i, by omega⟩ = none
    · refine ⟨⟨i, by omega⟩, ?_, le_refl _, hi, ?_⟩
      · simp only [hi, if_true]
      · intro j h1 h2
        exact absurd h2 (by simpa using h1)
    · simp only [hi, if_false]
      have hex' : ∃ j : Fin 32, i + 1 ≤ j.val ∧ b.items j = none := by
        obtain ⟨j, hj, hjn⟩ := hex
        refine ⟨j, ?_, hjn⟩
        by_contra hlt
        have hji : j = ⟨i, by omega⟩ := Fin.ext (by simp only; omega)
        exact hi (hji ▸ hjn)
      obtain ⟨k, hk, hik, hkn, hlow⟩ := ih (i + 1) (by omega) hex'
      refine ⟨k, hk, by omega, hkn, ?_⟩
      intro j h1 h2
      by_cases hji : j.val = i
      · have : j = ⟨i, by omega⟩ := Fin.ext hji
        rw [this]
        exact hi
      · exact hlow j (by omega) h2

theorem returnFullIndexFrom_spec (b : buffer) :
    ∀ (n i : Nat) (h : i + n = 32), (∃ j : Fin 32, i ≤ j.val ∧ b.items j ≠ none) →
      ∃ k : Fin 32, returnFullIndexFrom b n i h = (k.val : Int) ∧ i ≤ k.val ∧
        b.items k ≠ none ∧ ∀ j : Fin 32, i ≤ j.val → j.val < k.val → b.items j = none := by
  intro n
  induction n with
  | zero =>
    intro i h hex
    obtain ⟨j, hj, _⟩ := hex
    exact absurd j.isLt (by omega)
  | succ n ih =>
    intro i h hex
    unfold returnFullIndexFrom
    by_cases hi : b.items ⟨i, by omega⟩ = none
    · simp only [hi, ne_eq, not_true_eq_false, if_false]
      have hex' : ∃ j : Fin 32, i + 1 ≤ j.val ∧ b.items j ≠ none := by
        obtain ⟨j, hj, hjn⟩ := hex
        refine ⟨j, ?_, hjn⟩
        by_contra hlt
        have hji : j = ⟨i, by omega⟩ := Fin.ext (by simp only; omega)
        exact hjn (hji ▸ hi)
      obtain ⟨k, hk, hik, hkn, hlow⟩ := ih (i + 1) (by omega) hex'
      refine ⟨k, hk, by omega, hkn, ?_⟩
      intro j h1 h2
      by_cases hji : j.val = i
      · have : j = ⟨i, by omega⟩ := Fin.ext hji
        rw [this]
        exact hi
      · exact hlow j (by omega) h2
    · refine ⟨⟨i, by omega⟩, ?_, le_refl _, hi, ?_⟩
      · simp only [hi, ne_eq, not_false_eq_true, if_true]
      · intro j h1 h2
        exact absurd h2 (by simpa using h1)

/-- When the buffer is not full, `returnEmptyIndex` is the lowest vacant index. -/
theorem returnEmptyIndex_of_not_full (b : buffer) (hfull : isBufFull b = false) :
    ∃ k : Fin 32, returnEmptyIndex b = (k.val : Int) ∧ b.items k = none ∧
      ∀ j : Fin 32, j < k → b.items j ≠ none := by
  have hex : ∃ j : Fin 32, 0 ≤ j.val ∧ b.items j = none := by
    by_contra hno
    have hall : ∀ j : Fin 32, b.items j ≠ none := fun j hj => hno ⟨j, Nat.zero_le _, hj⟩
    rw [(isBufFull_eq_true_iff b).mpr hall] at hfull
    exact absurd hfull (by decide)
  obtain ⟨k, hk, _, hkn, hlow⟩ := returnEmptyIndexFrom_spec b 32 0 rfl hex
  exact ⟨k, hk, hkn, fun j hj => hlow j (Nat.zero_le _) hj⟩

/-- When the buffer is not empty, `returnFullIndex` is the lowest occupied index. -/
theorem returnFullIndex_of_not_empty (b : buffer) (hempty : isBufEmpty b = false) :
    ∃ k : Fin 32, returnFullIndex b = (k.val : Int) ∧ b.items k ≠ none ∧
      ∀ j : Fin 32, j < k → b.items j = none := by
  have hex : ∃ j : Fin 32, 0 ≤ j.val ∧ b.items j ≠ none := by
    by_contra hno
    have hall : ∀ j : Fin 32, b.items j = none := by
      intro j
      by_contra hj
      exact hno ⟨j, Nat.zero_le _, hj⟩
    rw [(isBufEmpty_eq_true_iff b).mpr hall] at hempty
    exact absurd hempty (by decide)
  obtain ⟨k, hk, _, hkn, hlow⟩ := returnFullIndexFrom_spec b 32 0 rfl hex
  exact ⟨k, hk, hkn, fun j hj => hlow j (Nat.zero_le _) hj⟩

theorem buffer.read_coe (b : buffer) (k : Fin 32) :
    b.read (k.val : Int) = some (b.items k) := by
  unfold buffer.read
  have h : 0 ≤ (k.val : Int) ∧ (k.val : Int) < 32 := ⟨by omega, by omega⟩
  rw [dif_pos h]
  rfl

theorem buffer.write_coe (b : buffer) (k : Fin 32) (p : Option item) :
    b.write (k.val : Int) p = some ⟨Function.update b.items k p⟩ := by
  unfold buffer.write
  have h : 0 ≤ (k.val : Int) ∧ (k.val : Int) < 32 := ⟨by omega, by omega⟩
  rw [dif_pos h]
  rfl

/-- With the buffer not full, `addRandomItem` is an update of the lowest vacant slot. -/
theorem addRandomItem_eq_update (b : buffer) (x : Option item) (hfull : isBufFull b = false) :
    ∃ k : Fin 32, returnEmptyIndex b = (k.val : Int) ∧ b.items k = none ∧
      (∀ j : Fin 32, j < k → b.items j ≠ none) ∧
      addRandomItem x b = some ⟨Function.update b.items k x⟩ := by
  obtain ⟨k, hk, hkn, hlow⟩ := returnEmptyIndex_of_not_full b hfull
  refine ⟨k, hk, hkn, hlow, ?_⟩
  unfold addRandomItem
  simp only [hk]
  exact buffer.write_coe b k x

/-- With the buffer not empty, the consume step returns the pointer of the lowest occupied
slot and sets that slot to NULL. -/
theorem consumeStep_eq_update (b : buffer) (hempty : isBufEmpty b = false) :
    ∃ k : Fin 32, returnFullIndex b = (k.val : Int) ∧ b.items k ≠ none ∧
      (∀ j : Fin 32, j < k → b.items j = none) ∧
      consumeStep b = some (b.items k, ⟨Function.update b.items k none⟩) := by
  obtain ⟨k, hk, hkn, hlow⟩ := returnFullIndex_of_not_empty b hempty
  refine ⟨k, hk, hkn, hlow, ?_⟩
  unfold consumeStep getItem removeItem
  simp only [hk, buffer.read_coe, buffer.write_coe]

/-! ## Slot selection -/

/-- C1: when the buffer is not full, `addRandomItem x` succeeds and puts `x` at the lowest
index whose slot was vacant, leaving every other slot unchanged. -/
theorem addRandomItem_lowest_vacant (b : buffer) (x : Option item)
    (hfull : isBufFull b = false) :
    ∃ (i : Fin 32) (b' : buffer), addRandomItem x b = some b' ∧
      b.items i = none ∧ (∀ j : Fin 32, j < i → b.items j ≠ none) ∧
      b'.items i = x ∧ ∀ j : Fin 32, j ≠ i → b'.items j = b.items j := by
  obtain ⟨k, _, hkn, hlow, hadd⟩ := addRandomItem_eq_update b x hfull
  refine ⟨k, _, hadd, hkn, hlow, ?_, ?_⟩
  · simp
  · intro j hj
    simp [Function.update_noteq hj]

/-- Insertion of `{1,2}` into `sampleBuf`, whose lowest vacant slot is 1. -/
theorem addRandomItem_lowest_vacant_witness :
    isBufFull sampleBuf = false ∧
    ∃ (i : Fin 32) (b' : buffer), addRandomItem (some ⟨1, 2⟩) sampleBuf = some b' ∧
      sampleBuf.items i = none ∧ (∀ j : Fin 32, j < i → sampleBuf.items j ≠ none) ∧
      b'.items i = some ⟨1, 2⟩ ∧ ∀ j : Fin 32, j ≠ i → b'.items j = sampleBuf.items j :=
  ⟨by decide, addRandomItem_lowest_vacant sampleBuf (some ⟨1, 2⟩) (by decide)⟩

/-- C2: when the buffer is not empty, the consume step (`getItem` then `removeItem` on the
reported index) succeeds, returns the item stored at the lowest occupied index, leaves that
slot vacant and every other slot unchanged. -/
theorem consumeStep_lowest_occupied (b : buffer) (hempty : isBufEmpty b = false) :
    ∃ (i : Fin 32) (x : item) (b' : buffer), consumeStep b = some (some x, b') ∧
      getItem b = some ((i.val : Int), some x) ∧
      removeItem (i.val : Int) b = some b' ∧
      b.items i = some x ∧ (∀ j : Fin 32, j < i → b.items j = none) ∧
      b'.items i = none ∧ ∀ j : Fin 32, j ≠ i → b'.items j = b.items j := by
  obtain ⟨k, hk, hkn, hlow, hstep⟩ := consumeStep_eq_update b hempty
  obtain ⟨x, hx⟩ := Option.ne_none_iff_exists'.mp hkn
  refine ⟨k, x, ⟨Function.update b.items k none⟩, ?_, ?_, ?_, hx, hlow, ?_, ?_⟩
  · rw [hstep, hx]
  · unfold getItem
    simp only [hk, buffer.read_coe, hx]
  · unfold removeItem
    simp only [buffer.read_coe, buffer.write_coe]
  · simp
  · intro j hj
    simp [Function.update_noteq hj]

/-- The consume step on `sampleBuf`, whose lowest occupied slot is 0. -/
theorem consumeStep_lowest_occupied_witness :
    isBufEmpty sampleBuf = false ∧
    ∃ (i : Fin 32) (x : item) (b' : buffer), consumeStep sampleBuf = some (some x, b') ∧
      getItem sampleBuf = some ((i.val : Int), some x) ∧
      removeItem (i.val : Int) sampleBuf = some b' ∧
      sampleBuf.items i = some x ∧ (∀ j : Fin 32, j < i → sampleBuf.items j = none) ∧
      b'.items i = none ∧ ∀ j : Fin 32, j ≠ i → b'.items j = sampleBuf.items j :=
  ⟨by decide, consumeStep_lowest_occupied sampleBuf (by decide)⟩

/-! ## Lemmas on occupancy, contents and runs -/

theorem sum_update_slot {M : Type} [AddCommMonoid M] (g : Option item → M)
    (f : Fin 32 → Option item) (k : Fin 32) (v : Option item) :
    (∑ i : Fin 32, g (Function.update f k v i)) + g (f k) = (∑ i : Fin 32, g (f i)) + g v := by
  have h1 : (fun i => g (Function.update f k v i)) = Function.update (g ∘ f) k (g v) := by
    rw [← Function.comp_update]
    rfl
  rw [h1, Finset.sum_update_of_mem (Finset.mem_univ k), Finset.sdiff_singleton_eq_erase,
    ← Finset.add_sum_erase Finset.univ (fun i => g (f i)) (Finset.mem_univ k)]
  simp only [Function.comp_apply]
  abel

theorem occupied_update_some (f : Fin 32 → Option item) (k : Fin 32) (x : item)
    (hk : f k = none) : occupied ⟨Function.update f k (some x)⟩ = occupied ⟨f⟩ + 1 := by
  have h := sum_update_slot (fun o => if o = none then (0 : Nat) else 1) f k (some x)
  simp only [hk, if_true, add_zero] at h
  unfold occupied
  simpa using h

theorem occupied_update_none (f : Fin 32 → Option item) (k : Fin 32) (x : item)
    (hk : f k = some x) : occupied ⟨Function.update f k none⟩ + 1 = occupied ⟨f⟩ := by
  have h := sum_update_slot (fun o => if o = none then (0 : Nat) else 1) f k none
  simp only [hk, if_true, add_zero] at h
  unfold occupied
  simpa using h

theorem held_update_some (f : Fin 32 → Option item) (k : Fin 32) (x : item)
    (hk : f k = none) : held ⟨Function.update f k (some x)⟩ = held ⟨f⟩ + {x} := by
  have h := sum_update_slot slotContents f k (some x)
  simp only [hk, slotContents, add_zero] at h
  unfold held
  exact h

theorem held_update_none (f : Fin 32 → Option item) (k : Fin 32) (x : item)
    (hk : f k = some x) : held ⟨Function.update f k none⟩ + {x} = held ⟨f⟩ := by
  have h := sum_update_slot slotContents f k none
  simp only [hk, slotContents, add_zero] at h
  unfold held
  exact h

theorem occupied_le (b : buffer) : occupied b ≤ 32 := by
  unfold occupied
  have h : ∀ i ∈ (Finset.univ : Finset (Fin 32)),
      (if b.items i = none then 0 else 1) ≤ (1 : Nat) := by
    intro i _
    split <;> omega
  have h2 := Finset.sum_le_sum h
  simpa using h2

theorem initializeBufferFrom_items :
    ∀ (n i : Nat) (h : i + n = 32) (b : buffer) (j : Fin 32),
      (initializeBufferFrom n i h b).items j = if i ≤ j.val then none else b.items j := by
  intro n
  induction n with
  | zero =>
    intro i h b j
    have : ¬ i ≤ j.val := by
      have := j.isLt
      omega
    simp [initializeBufferFrom, this]
  | succ n ih =>
    intro i h b j
    unfold initializeBufferFrom
    rw [ih]
    by_cases h1 : i + 1 ≤ j.val
    · have h2 : i ≤ j.val := by omega
      simp [h1, h2]
    · by_cases h2 : j.val = i
      · have h5 : i ≤ j.val := by omega
        have h6 : (⟨i, by omega⟩ : Fin 32) = j := Fin.ext h2.symm
        simp only [h1, h5, if_true, if_false]
        rw [← h6]
        exact Function.update_same _ _ _
      · have h3 : ¬ i ≤ j.val := by omega
        have h4 : j ≠ ⟨i, by omega⟩ := fun e => h2 (congrArg Fin.val e)
        simp [h1, h3, Function.update_noteq h4]

theorem initializeBuffer_items (b : buffer) (j : Fin 32) : (initializeBuffer b).items j = none := by
  unfold initializeBuffer
  rw [initializeBufferFrom_items]
  simp

theorem held_initializeBuffer (b : buffer) : held (initializeBuffer b) = 0 := by
  unfold held
  simp [initializeBuffer_items, slotContents]

theorem occupied_initializeBuffer (b : buffer) : occupied (initializeBuffer b) = 0 := by
  unfold occupied
  simp [initializeBuffer_items]

/-- A produce step that is taken fills a vacant slot. -/
theorem step_produce_some (s s' : RunState) (x : item) (h : step s (Op.produce x) = some s') :
    ∃ k : Fin 32, s.buf.items k = none ∧
      s' = ⟨⟨Function.update s.buf.items k (some x)⟩, s.inserted ++ [x], s.returned⟩ := by
  unfold step at h
  by_cases hf : isBufFull s.buf = true
  · simp [hf] at h
  · have hf' : isBufFull s.buf = false := by simpa using hf
    obtain ⟨k, _, hkn, _, hadd⟩ := addRandomItem_eq_update s.buf (some x) hf'
    refine ⟨k, hkn, ?_⟩
    simp only [hf', hadd] at h
    simpa using h.symm

/-- A consume step that is taken empties an occupied slot and returns its item. -/
theorem step_consume_some (s s' : RunState) (h : step s Op.consume = some s') :
    ∃ (k : Fin 32) (x : item), s.buf.items k = some x ∧
      s' = ⟨⟨Function.update s.buf.items k none⟩, s.inserted, s.returned ++ [x]⟩ := by
  unfold step at h
  by_cases he : isBufEmpty s.buf = true
  · simp [he] at h
  · have he' : isBufEmpty s.buf = false := by simpa using he
    obtain ⟨k, _, hkn, _, hstep⟩ := consumeStep_eq_update s.buf he'
    obtain ⟨x, hx⟩ := Option.ne_none_iff_exists'.mp hkn
    refine ⟨k, x, hx, ?_⟩
    simp only [he', hstep, hx] at h
    simpa using h.symm

/-- A step fails only by its guard: a produce step is taken exactly when the buffer is not
full, a consume step exactly when it is not empty. -/
theorem step_isSome (s : RunState) (x : item) :
    ((step s (Op.produce x)).isSome = true ↔ isBufFull s.buf = false) ∧
    ((step s Op.consume).isSome = true ↔ isBufEmpty s.buf = false) := by
  constructor
  · cases hf : isBufFull s.buf with
    | true => simp [step, hf]
    | false =>
      obtain ⟨k, _, _, _, hadd⟩ := addRandomItem_eq_update s.buf (some x) hf
      simp [step, hf, hadd]
  · cases he : isBufEmpty s.buf with
    | true => simp [step, he]
    | false =>
      obtain ⟨k, _, _, _, hstep⟩ := consumeStep_eq_update s.buf he
      simp [step, he, hstep]

/-- Conservation is preserved by every step. -/
theorem step_conserves (s s' : RunState) (op : Op) (h : step s op = some s')
    (hinv : (s.inserted : Multiset item) = (s.returned : Multiset item) + held s.buf) :
    (s'.inserted : Multiset item) = (s'.returned : Multiset item) + held s'.buf := by
  cases op with
  | produce x =>
    obtain ⟨k, hk, rfl⟩ := step_produce_some s s' x h
    simp only
    rw [held_update_some _ k x hk, ← Multiset.coe_add, hinv]
    simp only [Multiset.coe_singleton]
    abel
  | consume =>
    obtain ⟨k, x, hk, rfl⟩ := step_consume_some s s' h
    simp only
    have h2 := held_update_none _ k x hk
    rw [← Multiset.coe_add, hinv, ← h2]
    simp only [Multiset.coe_singleton]
    abel

theorem run_conserves : ∀ (ops : List Op) (s s' : RunState), run s ops = some s' →
    (s.inserted : Multiset item) = (s.returned : Multiset item) + held s.buf →
    (s'.inserted : Multiset item) = (s'.returned : Multiset item) + held s'.buf := by
  intro ops
  induction ops with
  | nil =>
    intro s s' h hinv
    simp only [run, Option.some.injEq] at h
    rw [← h]
    exact hinv
  | cons op ops ih =>
    intro s s' h hinv
    unfold run at h
    cases hs : step s op with
    | none => simp [hs] at h
    | some s1 =>
      simp only [hs] at h
      exact ih s1 s' h (step_conserves s s1 op hs hinv)

theorem run_counts : ∀ (ops : List Op) (s s' : RunState), run s ops = some s' →
    s'.inserted = s.inserted ++ insertedItems ops ∧
    s'.returned.length = s.returned.length + countConsume ops ∧
    occupied s'.buf + countConsume ops = occupied s.buf + countProduce ops := by
  intro ops
  induction ops with
  | nil =>
    intro s s' h
    simp only [run, Option.some.injEq] at h
    rw [← h]
    simp [countProduce, countConsume, insertedItems]
  | cons op ops ih =>
    intro s s' h
    unfold run at h
    cases hs : step s op with
    | none => simp [hs] at h
    | some s1 =>
      simp only [hs] at h
      obtain ⟨h1, h2, h3⟩ := ih s1 s' h
      cases op with
      | produce x =>
        obtain ⟨k, hk, rfl⟩ := step_produce_some s s1 x hs
        have ho := occupied_update_some _ k x hk
        simp only [List.length_append, List.length_singleton] at h2 h3
        simp only [countProduce, countConsume, insertedItems]
        refine ⟨by simpa using h1, by omega, ?_⟩
        have : occupied s.buf = occupied ⟨s.buf.items⟩ := rfl
        omega
      | consume =>
        obtain ⟨k, x, hk, rfl⟩ := step_consume_some s s1 hs
        have ho := occupied_update_none _ k x hk
        simp only [List.length_append, List.length_singleton] at h2 h3
        simp only [countProduce, countConsume, insertedItems]
        refine ⟨h1, by omega, ?_⟩
        have : occupied s.buf = occupied ⟨s.buf.items⟩ := rfl
        omega

theorem insertedItems_length : ∀ ops : List Op, (insertedItems ops).length = countProduce ops := by
  intro ops
  induction ops with
  | nil => rfl
  | cons op ops ih =>
    cases op with
    | produce x => simp [insertedItems, countProduce, ih]
    | consume => simp [insertedItems, countProduce, ih]

theorem card_held (b : buffer) : Multiset.card (held b) = occupied b := by
  unfold held occupied
  rw [map_sum]
  refine Finset.sum_congr rfl ?_
  intro i _
  cases b.items i <;> simp [slotContents]

/-- What a run from the initialised buffer leaves: the inserted items are those of the
produce steps, the returned ones are as many as the consume steps, the occupancy is the
difference, and the inserted items are the returned ones together with the held ones. -/
theorem run_start (b0 : buffer) (ops : List Op) (s : RunState)
    (h : run (start b0) ops = some s) :
    s.inserted = insertedItems ops ∧ s.returned.length = countConsume ops ∧
    occupied s.buf + countConsume ops = countProduce ops ∧
    (insertedItems ops : Multiset item) = (s.returned : Multiset item) + held s.buf := by
  obtain ⟨h1, h2, h3⟩ := run_counts ops (start b0) s h
  have h4 := run_conserves ops (start b0) s h (by simp [start, held_initializeBuffer])
  simp only [start, List.nil_append, List.length_nil, Nat.zero_add,
    occupied_initializeBuffer] at h1 h2 h3
  rw [h1] at h4
  exact ⟨h1, h2, h3, h4⟩

theorem run_append : ∀ (l1 l2 : List Op) (s s' : RunState), run s (l1 ++ l2) = some s' →
    ∃ s1, run s l1 = some s1 ∧ run s1 l2 = some s' := by
  intro l1
  induction l1 with
  | nil =>
    intro l2 s s' h
    exact ⟨s, rfl, h⟩
  | cons op l1 ih =>
    intro l2 s s' h
    simp only [List.cons_append] at h
    unfold run at h
    cases hs : step s op with
    | none => simp [hs] at h
    | some s1 =>
      simp only [hs] at h
      obtain ⟨s2, h1, h2⟩ := ih l2 s1 s' h
      refine ⟨s2, ?_, h2⟩
      rw [run, hs]
      exact h1

/-! ## Lemmas on the wait loops -/

theorem holdsAfterTrace_append (l1 l2 : List Event) :
    ∀ h : Bool, holdsAfterTrace h (l1 ++ l2) = holdsAfterTrace (holdsAfterTrace h l1) l2 := by
  induction l1 with
  | nil =>
    intro h
    rfl
  | cons e l1 ih =>
    intro h
    simp only [List.cons_append, holdsAfterTrace]
    exact ih _

theorem waitWhileFull_spec : ∀ (wakes : List buffer) (b : buffer),
    (∀ e ∈ (waitWhileFull b wakes).1, e.isWaitLoop = true) ∧
    (∀ b1, (waitWhileFull b wakes).2 = some b1 →
      isBufFull b1 = false ∧ holdsAfterTrace true (waitWhileFull b wakes).1 = true) := by
  intro wakes
  induction wakes with
  | nil =>
    intro b
    unfold waitWhileFull
    by_cases hf : isBufFull b = true
    · simp [hf, Event.isWaitLoop]
    · simp [hf, Event.isWaitLoop, holdsAfterTrace, holdsAfter]
  | cons b' rest ih =>
    intro b
    unfold waitWhileFull
    by_cases hf : isBufFull b = true
    · obtain ⟨h1, h2⟩ := ih b'
      simp only [hf, if_true]
      refine ⟨?_, ?_⟩
      · intro e he
        simp only [List.mem_cons] at he
        rcases he with rfl | rfl | rfl | he
        · rfl
        · rfl
        · rfl
        · exact h1 e he
      · intro b1 hb1
        obtain ⟨h3, h4⟩ := h2 b1 hb1
        exact ⟨h3, by simpa [holdsAfterTrace, holdsAfter] using h4⟩
    · simp [hf, Event.isWaitLoop, holdsAfterTrace, holdsAfter]

theorem waitWhileEmpty_spec : ∀ (wakes : List buffer) (b : buffer),
    (∀ e ∈ (waitWhileEmpty b wakes).1, e.isWaitLoop = true) ∧
    (∀ b1, (waitWhileEmpty b wakes).2 = some b1 →
      isBufEmpty b1 = false ∧ holdsAfterTrace true (waitWhileEmpty b wakes).1 = true) := by
  intro wakes
  induction wakes with
  | nil =>
    intro b
    unfold waitWhileEmpty
    by_cases hf : isBufEmpty b = true
    · simp [hf, Event.isWaitLoop]
    · simp [hf, Event.isWaitLoop, holdsAfterTrace, holdsAfter]
  | cons b' rest ih =>
    intro b
    unfold waitWhileEmpty
    by_cases hf : isBufEmpty b = true
    · obtain ⟨h1, h2⟩ := ih b'
      simp only [hf, if_true]
      refine ⟨?_, ?_⟩
      · intro e he
        simp only [List.mem_cons] at he
        rcases he with rfl | rfl | rfl | he
        · rfl
        · rfl
        · rfl
        · exact h1 e he
      · intro b1 hb1
        obtain ⟨h3, h4⟩ := h2 b1 hb1
        exact ⟨h3, by simpa [holdsAfterTrace, holdsAfter] using h4⟩
    · simp [hf, Event.isWaitLoop, holdsAfterTrace, holdsAfter]

/-- The trace and outcome of `produceAnItem` once its wait loop has been left. -/
theorem produceAnItem_of_exit (b : buffer) (wakes : List buffer) (r1 r2 r3 : Int)
    (mallocOk : Bool) (tr : List Event) (b1 : buffer)
    (hw : waitWhileFull b wakes = (tr, some b1)) :
    ∃ k : Fin 32, returnEmptyIndex b1 = (k.val : Int) ∧ isBufFull b1 = false ∧
      produceAnItem b wakes r1 r2 r3 mallocOk =
        if mallocOk = true then
          (Event.mutexLock :: tr ++ [Event.print (producerVal r1), Event.sleep (producerVal r1)]
            ++ [Event.insert (k.val : Int), Event.condSignal, Event.mutexUnlock],
           Outcome.returned
            ⟨Function.update b1.items k (some ⟨itemFirstVal r2, itemSecondVal r3⟩)⟩)
        else
          (Event.mutexLock :: tr ++ [Event.print (producerVal r1), Event.sleep (producerVal r1)],
            Outcome.undefined) := by
  have hfull : isBufFull b1 = false :=
    ((waitWhileFull_spec wakes b).2 b1 (by rw [hw])).1
  cases mallocOk with
  | false =>
    obtain ⟨k, hk, _, _, _⟩ :=
      addRandomItem_eq_update b1 none hfull
    refine ⟨k, hk, hfull, ?_⟩
    simp [produceAnItem, hw, createRandomItem]
  | true =>
    obtain ⟨k, hk, _, _, hadd⟩ :=
      addRandomItem_eq_update b1 (some ⟨itemFirstVal r2, itemSecondVal r3⟩) hfull
    refine ⟨k, hk, hfull, ?_⟩
    simp [produceAnItem, hw, createRandomItem, hadd, hk]

/-- The trace and outcome of `consumeAnItem` once its wait loop has been left. -/
theorem consumeAnItem_of_exit (b : buffer) (wakes : List buffer) (tr : List Event)
    (b1 : buffer) (hw : waitWhileEmpty b wakes = (tr, some b1)) :
    ∃ (k : Fin 32) (x : item), returnFullIndex b1 = (k.val : Int) ∧ isBufEmpty b1 = false ∧
      getItem b1 = some ((k.val : Int), some x) ∧
      consumeAnItem b wakes =
        (Event.mutexLock :: tr ++
          [Event.get (k.val : Int) (some x), Event.print x.randomNum, Event.sleep x.waitTime,
            Event.print x.waitTime] ++
          [Event.remove (k.val : Int), Event.condSignal, Event.mutexUnlock],
         Outcome.returned ⟨Function.update b1.items k none⟩) := by
  have hempty : isBufEmpty b1 = false :=
    ((waitWhileEmpty_spec wakes b).2 b1 (by rw [hw])).1
  obtain ⟨k, hk, hkn, _, _⟩ := consumeStep_eq_update b1 hempty
  obtain ⟨x, hx⟩ := Option.ne_none_iff_exists'.mp hkn
  have hget : getItem b1 = some ((k.val : Int), some x) := by
    unfold getItem
    simp only [hk, buffer.read_coe, hx]
  have hrem : removeItem (k.val : Int) b1 = some ⟨Function.update b1.items k none⟩ := by
    unfold removeItem
    simp only [buffer.read_coe, buffer.write_coe]
  refine ⟨k, x, hk, hempty, hget, ?_⟩
  simp [consumeAnItem, hw, hget, hrem]

/-- A thread body whose wait loop is not left is blocked, with a trace of wait events. -/
theorem produceAnItem_of_blocked (b : buffer) (wakes : List buffer) (r1 r2 r3 : Int)
    (mallocOk : Bool) (tr : List Event) (hw : waitWhileFull b wakes = (tr, none)) :
    produceAnItem b wakes r1 r2 r3 mallocOk = (Event.mutexLock :: tr, Outcome.blocked) := by
  simp [produceAnItem, hw]

theorem consumeAnItem_of_blocked (b : buffer) (wakes : List buffer)
    (tr : List Event) (hw : waitWhileEmpty b wakes = (tr, none)) :
    consumeAnItem b wakes = (Event.mutexLock :: tr, Outcome.blocked) := by
  simp [consumeAnItem, hw]

theorem sleepsWhileHeld_of_held (post : List Event) (secs : Int) :
    ∀ (pre : List Event) (h : Bool), holdsAfterTrace h pre = true →
      sleepsWhileHeld h (pre ++ Event.sleep secs :: post) = true := by
  intro pre
  induction pre with
  | nil =>
    intro h hh
    simp only [holdsAfterTrace] at hh
    simp [sleepsWhileHeld, hh, Event.isSleep]
  | cons e pre ih =>
    intro h hh
    simp only [holdsAfterTrace] at hh
    rw [List.cons_append, sleepsWhileHeld, ih _ hh, Bool.or_true]

theorem isWaitLoop_not_sleep (e : Event) (h : e.isWaitLoop = true) : e.isSleep = false := by
  cases e <;> simp_all [Event.isWaitLoop, Event.isSleep]

/-! ## Status predicates -/

/-- C3: `isBufFull` returns true exactly when each of the 32 slots holds a non-NULL
pointer. -/
theorem isBufFull_iff_all_occupied (b : buffer) :
    isBufFull b = true ↔ ∀ j : Fin 32, b.items j ≠ none :=
  isBufFull_eq_true_iff b

/-- C4: `isBufEmpty` returns true exactly when each of the 32 slots is NULL. -/
theorem isBufEmpty_iff_all_vacant (b : buffer) :
    isBufEmpty b = true ↔ ∀ j : Fin 32, b.items j = none :=
  isBufEmpty_eq_true_iff b

/-! ## Conservation -/

/-- C5: no item is duplicated or lost. For every sequence of guarded produce and consume
steps run from the initialised buffer, the multiset of the items inserted by the produce
steps equals the multiset of the items the consume steps returned plus the multiset of the
items still held in the slots; every consume step returned an item. -/
theorem conservation (b0 : buffer) (ops : List Op) (s : RunState)
    (h : run (start b0) ops = some s) :
    (insertedItems ops : Multiset item) = (s.returned : Multiset item) + held s.buf ∧
    s.inserted = insertedItems ops ∧ s.returned.length = countConsume ops := by
  obtain ⟨h1, h2, _, h4⟩ := run_start b0 ops s h
  exact ⟨h4, h1, h2⟩

/-- Conservation on the run `sampleOps`. -/
theorem conservation_witness :
    ∃ s, run (start sampleBuf) sampleOps = some s ∧
      (insertedItems sampleOps : Multiset item) = (s.returned : Multiset item) + held s.buf ∧
      s.inserted = insertedItems sampleOps ∧ s.returned.length = countConsume sampleOps :=
  ⟨_, rfl, conservation sampleBuf sampleOps _ rfl⟩

/-- C6, as stated, fails: in the run produce `{5,3}`, produce `{7,4}`, consume, produce
`{1,2}`, consume there are 3 produce and 2 consume steps, the consume steps return
`{5,3}` and `{1,2}`, and the first two produce steps inserted `{5,3}` and `{7,4}`. -/
theorem returned_ne_first_inserted :
    ∃ s, run (start emptyBuf) sampleOps = some s ∧
      countConsume sampleOps ≤ countProduce sampleOps ∧
      s.returned = [⟨5, 3⟩, ⟨1, 2⟩] ∧
      (insertedItems sampleOps).take (countConsume sampleOps) = [⟨5, 3⟩, ⟨7, 4⟩] ∧
      (s.returned : Multiset item) ≠
        ((insertedItems sampleOps).take (countConsume sampleOps) : Multiset item) :=
  ⟨_, rfl, by decide, by decide, by decide, by decide⟩

/-- C6, amended: for every run of guarded steps from the initialised buffer with P produce
and C consume steps, C ≤ P, and the multiset of the items returned by the C consume steps
is a sub-multiset, of size C, of the multiset of the items inserted by the P produce steps:
it is that multiset without the items still held in the slots. When C = P it is the
multiset of the first C insertions. -/
theorem returned_sub_inserted (b0 : buffer) (ops : List Op) (s : RunState)
    (h : run (start b0) ops = some s) :
    countConsume ops ≤ countProduce ops ∧
    Multiset.card (s.returned : Multiset item) = countConsume ops ∧
    Multiset.card (insertedItems ops : Multiset item) = countProduce ops ∧
    (s.returned : Multiset item) ≤ (insertedItems ops : Multiset item) ∧
    (s.returned : Multiset item) = (insertedItems ops : Multiset item) - held s.buf ∧
    (countConsume ops = countProduce ops →
      (s.returned : Multiset item) =
        ((insertedItems ops).take (countConsume ops) : Multiset item)) := by
  obtain ⟨_, h2, h3, h4⟩ := run_start b0 ops s h
  refine ⟨by omega, by simpa using h2, by simpa using insertedItems_length ops, ?_, ?_, ?_⟩
  · rw [h4]
    exact Multiset.le_add_right _ _
  · rw [h4]
    exact (add_tsub_cancel_right _ _).symm
  · intro hcp
    have hocc : occupied s.buf = 0 := by omega
    have hheld : held s.buf = 0 := by
      rw [← Multiset.card_eq_zero, card_held, hocc]
    rw [hheld, add_zero] at h4
    rw [hcp, ← insertedItems_length ops, List.take_length, h4]

/-- The run `sampleOps`, with 3 produce and 2 consume steps, and the same run followed by a third consume step. -/
theorem returned_sub_inserted_witness :
    (∃ s, run (start emptyBuf) sampleOps = some s ∧
      countConsume sampleOps ≤ countProduce sampleOps ∧
      Multiset.card (s.returned : Multiset item) = countConsume sampleOps ∧
      Multiset.card (insertedItems sampleOps : Multiset item) = countProduce sampleOps ∧
      (s.returned : Multiset item) ≤ (insertedItems sampleOps : Multiset item) ∧
      (s.returned : Multiset item) = (insertedItems sampleOps : Multiset item) - held s.buf) ∧
    (∃ s, run (start emptyBuf) (sampleOps ++ [Op.consume]) = some s ∧
      countConsume (sampleOps ++ [Op.consume]) = countProduce (sampleOps ++ [Op.consume]) ∧
      (s.returned : Multiset item) =
        ((insertedItems (sampleOps ++ [Op.consume])).take
          (countConsume (sampleOps ++ [Op.consume])) : Multiset item)) :=
  ⟨⟨_, rfl,
      (returned_sub_inserted emptyBuf sampleOps _ rfl).1,
      (returned_sub_inserted emptyBuf sampleOps _ rfl).2.1,
      (returned_sub_inserted emptyBuf sampleOps _ rfl).2.2.1,
      (returned_sub_inserted emptyBuf sampleOps _ rfl).2.2.2.1,
      (returned_sub_inserted emptyBuf sampleOps _ rfl).2.2.2.2.1⟩,
    ⟨_, rfl, by decide,
      (returned_sub_inserted emptyBuf (sampleOps ++ [Op.consume]) _ rfl).2.2.2.2.2
        (by decide)⟩⟩

/-! ## Occupancy -/

/-- C9: each successful step changes the number of occupied slots by exactly one. When the
buffer is not full, `addRandomItem` of a non-NULL item succeeds and raises the count by 1;
when the buffer is not empty, the consume step (`getItem` then `removeItem`) succeeds and
lowers it by 1. -/
theorem occupied_changes_by_one (b : buffer) (x : item) :
    (isBufFull b = false →
      ∃ b', addRandomItem (some x) b = some b' ∧ occupied b' = occupied b + 1) ∧
    (isBufEmpty b = false →
      ∃ p b', consumeStep b = some (p, b') ∧ occupied b' + 1 = occupied b) := by
  constructor
  · intro hfull
    obtain ⟨k, _, hkn, _, hadd⟩ := addRandomItem_eq_update b (some x) hfull
    exact ⟨_, hadd, occupied_update_some b.items k x hkn⟩
  · intro hempty
    obtain ⟨k, _, hkn, _, hstep⟩ := consumeStep_eq_update b hempty
    obtain ⟨y, hy⟩ := Option.ne_none_iff_exists'.mp hkn
    exact ⟨_, _, hstep, occupied_update_none b.items k y hy⟩

/-- Both steps on `sampleBuf`, which is neither full nor empty. -/
theorem occupied_changes_by_one_witness :
    (isBufFull sampleBuf = false ∧
      ∃ b', addRandomItem (some ⟨1, 2⟩) sampleBuf = some b' ∧
        occupied b' = occupied sampleBuf + 1) ∧
    (isBufEmpty sampleBuf = false ∧
      ∃ p b', consumeStep sampleBuf = some (p, b') ∧ occupied b' + 1 = occupied sampleBuf) :=
  ⟨⟨by decide, (occupied_changes_by_one sampleBuf ⟨1, 2⟩).1 (by decide)⟩,
    ⟨by decide, (occupied_changes_by_one sampleBuf ⟨1, 2⟩).2 (by decide)⟩⟩

/-- C10: occupancy bound. For every run of guarded steps from the initialised buffer, after
every step (after each prefix of the sequence) the number of occupied slots lies between 0
and 32; it is the number of produce steps minus the number of consume steps so far. -/
theorem occupancy_bound (b0 : buffer) (ops : List Op) (s : RunState)
    (h : run (start b0) ops = some s) (k : Nat) :
    ∃ sk, run (start b0) (ops.take k) = some sk ∧
      0 ≤ occupied sk.buf ∧ occupied sk.buf ≤ 32 ∧
      occupied sk.buf + countConsume (ops.take k) = countProduce (ops.take k) := by
  rw [← List.take_append_drop k ops] at h
  obtain ⟨sk, hk, _⟩ := run_append _ _ _ _ h
  obtain ⟨_, _, h3, _⟩ := run_start b0 _ sk hk
  exact ⟨sk, hk, Nat.zero_le _, occupied_le _, h3⟩

/-- The occupancy after the first two steps of `sampleOps`. -/
theorem occupancy_bound_witness :
    ∃ s, run (start sampleBuf) sampleOps = some s ∧
      ∃ sk, run (start sampleBuf) (sampleOps.take 2) = some sk ∧
        0 ≤ occupied sk.buf ∧ occupied sk.buf ≤ 32 ∧
        occupied sk.buf + countConsume (sampleOps.take 2) = countProduce (sampleOps.take 2) :=
  ⟨_, rfl, occupancy_bound sampleBuf sampleOps _ rfl 2⟩

/-! ## The timed suspensions and the mutex -/

/-- C7, as stated, fails: `produceAnItem` on the empty buffer and `consumeAnItem` on a
buffer holding `{5,3}` in slot 0 both call `sleep` after `pthread_mutex_lock` and before
`pthread_mutex_unlock`, with the mutex held. -/
theorem sleep_between_lock_and_unlock :
    (produceAnItem emptyBuf [] 0 0 0 true).1 =
      [Event.mutexLock, Event.checkFull false, Event.print 3, Event.sleep 3,
        Event.insert 0, Event.condSignal, Event.mutexUnlock] ∧
    sleepsWhileHeld false (produceAnItem emptyBuf [] 0 0 0 true).1 = true ∧
    (consumeAnItem sampleBuf []).1 =
      [Event.mutexLock, Event.checkEmpty false, Event.get 0 (some ⟨5, 3⟩), Event.print 5,
        Event.sleep 3, Event.print 3, Event.remove 0, Event.condSignal, Event.mutexUnlock] ∧
    sleepsWhileHeld false (consumeAnItem sampleBuf []).1 = true := by
  decide

/-- C7, amended: the timed suspensions are performed while the mutex is held. In the trace
of every execution of `produceAnItem` and of `consumeAnItem` that leaves its wait loop
there is exactly one `sleep`; it comes after the call's `pthread_mutex_lock`, with no
`pthread_mutex_unlock` before it and the mutex held, and the `pthread_mutex_unlock` that
ends a completed call comes after it. The producer sleeps `producerVal` seconds before
the item is created, the consumer the item's `waitTime` before `removeItem`. -/
theorem sleep_while_mutex_held (b : buffer) (wakes : List buffer) (r1 r2 r3 : Int)
    (mallocOk : Bool) :
    ((produceAnItem b wakes r1 r2 r3 mallocOk).2.isBlocked = false →
      ∃ mid post, (produceAnItem b wakes r1 r2 r3 mallocOk).1 =
          Event.mutexLock :: mid ++ Event.sleep (producerVal r1) :: post ∧
        Event.mutexUnlock ∉ mid ∧ holdsAfterTrace false (Event.mutexLock :: mid) = true ∧
        (∀ e ∈ mid ++ post, e.isSleep = false) ∧
        post.getLast? = (if mallocOk = true then some Event.mutexUnlock else none) ∧
        sleepsWhileHeld false (produceAnItem b wakes r1 r2 r3 mallocOk).1 = true) ∧
    ((consumeAnItem b wakes).2.isBlocked = false →
      ∃ mid post x k, (consumeAnItem b wakes).1 =
          Event.mutexLock :: mid ++ Event.sleep x.waitTime :: post ∧
        Event.get k (some x) ∈ mid ∧ Event.remove k ∈ post ∧
        Event.mutexUnlock ∉ mid ∧ holdsAfterTrace false (Event.mutexLock :: mid) = true ∧
        (∀ e ∈ mid ++ post, e.isSleep = false) ∧
        post.getLast? = some Event.mutexUnlock ∧
        sleepsWhileHeld false (consumeAnItem b wakes).1 = true) := by
  constructor
  · intro hnb
    rcases hw : waitWhileFull b wakes with ⟨tr, _ | b1⟩
    · rw [produceAnItem_of_blocked b wakes r1 r2 r3 mallocOk tr hw] at hnb
      simp [Outcome.isBlocked] at hnb
    · obtain ⟨k, _, _, hp⟩ := produceAnItem_of_exit b wakes r1 r2 r3 mallocOk tr b1 hw
      obtain ⟨hev, hex⟩ := waitWhileFull_spec wakes b
      rw [hw] at hev hex
      have hheld : holdsAfterTrace true tr = true := (hex b1 rfl).2
      have hmid : holdsAfterTrace false (Event.mutexLock :: (tr ++ [Event.print (producerVal r1)]))
          = true := by
        simp only [holdsAfterTrace, holdsAfter]
        rw [holdsAfterTrace_append, hheld]
        rfl
      have hnu : Event.mutexUnlock ∉ tr ++ [Event.print (producerVal r1)] := by
        intro hmem
        rcases List.mem_append.mp hmem with h1 | h1
        · exact absurd (hev _ h1) (by simp [Event.isWaitLoop])
        · simp at h1
      cases mallocOk with
      | false =>
        simp only [Bool.false_eq_true, if_false] at hp
        refine ⟨tr ++ [Event.print (producerVal r1)], [], ?_, hnu, hmid, ?_, ?_, ?_⟩
        · rw [hp]
          simp
        · intro e he
          simp only [List.append_nil] at he
          rcases List.mem_append.mp he with h1 | h1
          · exact isWaitLoop_not_sleep e (hev e h1)
          · simp only [List.mem_singleton] at h1
            rw [h1]
            rfl
        · rfl
        · rw [hp]
          have := sleepsWhileHeld_of_held [] (producerVal r1) _ false hmid
          simpa using this
      | true =>
        simp only [if_true] at hp
        refine ⟨tr ++ [Event.print (producerVal r1)],
          [Event.insert (k.val : Int), Event.condSignal, Event.mutexUnlock],
          ?_, hnu, hmid, ?_, ?_, ?_⟩
        · rw [hp]
          simp
        · intro e he
          rcases List.mem_append.mp he with h1 | h1
          · rcases List.mem_append.mp h1 with h2 | h2
            · exact isWaitLoop_not_sleep e (hev e h2)
            · simp only [List.mem_singleton] at h2
              rw [h2]
              rfl
          · simp only [List.mem_cons, List.mem_singleton, List.not_mem_nil, or_false] at h1
            rcases h1 with rfl | rfl | rfl <;> rfl
        · rfl
        · rw [hp]
          have := sleepsWhileHeld_of_held
            [Event.insert (k.val : Int), Event.condSignal, Event.mutexUnlock]
            (producerVal r1) _ false hmid
          simpa using this
  · intro hnb
    rcases hw : waitWhileEmpty b wakes with ⟨tr, _ | b1⟩
    · rw [consumeAnItem_of_blocked b wakes tr hw] at hnb
      simp [Outcome.isBlocked] at hnb
    · obtain ⟨k, x, _, _, _, hp⟩ := consumeAnItem_of_exit b wakes tr b1 hw
      obtain ⟨hev, hex⟩ := waitWhileEmpty_spec wakes b
      rw [hw] at hev hex
      have hheld : holdsAfterTrace true tr = true := (hex b1 rfl).2
      have hmid : holdsAfterTrace false (Event.mutexLock ::
          (tr ++ [Event.get (k.val : Int) (some x), Event.print x.randomNum])) = true := by
        simp only [holdsAfterTrace, holdsAfter]
        rw [holdsAfterTrace_append, hheld]
        rfl
      refine ⟨tr ++ [Event.get (k.val : Int) (some x), Event.print x.randomNum],
        [Event.print x.waitTime, Event.remove (k.val : Int), Event.condSignal,
          Event.mutexUnlock], x, (k.val : Int), ?_, ?_, ?_, ?_, hmid, ?_, rfl, ?_⟩
      · rw [hp]
        simp
      · simp
      · simp
      · intro hmem
        rcases List.mem_append.mp hmem with h1 | h1
        · exact absurd (hev _ h1) (by simp [Event.isWaitLoop])
        · simp at h1
      · intro e he
        rcases List.mem_append.mp he with h1 | h1
        · rcases List.mem_append.mp h1 with h2 | h2
          · exact isWaitLoop_not_sleep e (hev e h2)
          · simp only [List.mem_cons, List.mem_singleton, List.not_mem_nil, or_false] at h2
            rcases h2 with rfl | rfl <;> rfl
        · simp only [List.mem_cons, List.mem_singleton, List.not_mem_nil, or_false] at h1
          rcases h1 with rfl | rfl | rfl | rfl <;> rfl
      · rw [hp]
        have := sleepsWhileHeld_of_held
          [Event.print x.waitTime, Event.remove (k.val : Int), Event.condSignal,
            Event.mutexUnlock] x.waitTime _ false hmid
        simpa using this

/-- A producer that finds the buffer full and is woken twice, the first time spuriously, and a consumer that finds it empty and is woken twice. -/
theorem sleep_while_mutex_held_witness :
    ((produceAnItem fullBuf [fullBuf, sampleBuf] 0 0 0 true).2.isBlocked = false ∧
      ∃ mid post, (produceAnItem fullBuf [fullBuf, sampleBuf] 0 0 0 true).1 =
          Event.mutexLock :: mid ++ Event.sleep (producerVal 0) :: post ∧
        Event.mutexUnlock ∉ mid ∧ holdsAfterTrace false (Event.mutexLock :: mid) = true ∧
        (∀ e ∈ mid ++ post, e.isSleep = false) ∧
        post.getLast? = (if true = true then some Event.mutexUnlock else none) ∧
        sleepsWhileHeld false (produceAnItem fullBuf [fullBuf, sampleBuf] 0 0 0 true).1 = true) ∧
    ((consumeAnItem emptyBuf [emptyBuf, sampleBuf]).2.isBlocked = false ∧
      ∃ mid post x k, (consumeAnItem emptyBuf [emptyBuf, sampleBuf]).1 =
          Event.mutexLock :: mid ++ Event.sleep x.waitTime :: post ∧
        Event.get k (some x) ∈ mid ∧ Event.remove k ∈ post ∧
        Event.mutexUnlock ∉ mid ∧ holdsAfterTrace false (Event.mutexLock :: mid) = true ∧
        (∀ e ∈ mid ++ post, e.isSleep = false) ∧
        post.getLast? = some Event.mutexUnlock ∧
        sleepsWhileHeld false (consumeAnItem emptyBuf [emptyBuf, sampleBuf]).1 = true) :=
  ⟨⟨by decide,
      (sleep_while_mutex_held fullBuf [fullBuf, sampleBuf] 0 0 0 true).1 (by decide)⟩,
    ⟨by decide,
      (sleep_while_mutex_held emptyBuf [emptyBuf, sampleBuf] 0 0 0 true).2 (by decide)⟩⟩

/-! ## The precondition-violation branch -/

/-- C8: the precondition-violation branch is unreachable from the blocking protocols. For
every execution of `produceAnItem`, with any wake-ups of `pthread_cond_wait`, the buffer
with which the wait loop is left, on which `addRandomItem` then runs under the mutex, is
not full, `returnEmptyIndex` gives an index in `0..31` and never `-1`, and every index
`addRandomItem` is called with lies in `0..31`; with `malloc` succeeding the call has no
undefined behaviour. For every execution of `consumeAnItem` the buffer with which the
wait loop is left is not empty, `returnFullIndex` gives an index in `0..31`, `getItem`
returns a non-NULL item, and the call has no undefined behaviour. -/
theorem precondition_branch_unreachable (b : buffer) (wakes : List buffer) (r1 r2 r3 : Int)
    (mallocOk : Bool) :
    ((∀ tr b1, waitWhileFull b wakes = (tr, some b1) →
        isBufFull b1 = false ∧ 0 ≤ returnEmptyIndex b1 ∧ returnEmptyIndex b1 ≤ 31 ∧
        returnEmptyIndex b1 ≠ -1) ∧
      (∀ idx, Event.insert idx ∈ (produceAnItem b wakes r1 r2 r3 mallocOk).1 →
        0 ≤ idx ∧ idx ≤ 31) ∧
      (produceAnItem b wakes r1 r2 r3 true).2.isUndefined = false) ∧
    ((∀ tr b1, waitWhileEmpty b wakes = (tr, some b1) →
        isBufEmpty b1 = false ∧ 0 ≤ returnFullIndex b1 ∧ returnFullIndex b1 ≤ 31 ∧
        returnFullIndex b1 ≠ -1 ∧ ∃ x, getItem b1 = some (returnFullIndex b1, some x)) ∧
      (∀ idx p, Event.get idx p ∈ (consumeAnItem b wakes).1 →
        0 ≤ idx ∧ idx ≤ 31 ∧ p ≠ none) ∧
      (consumeAnItem b wakes).2.isUndefined = false) := by
  refine ⟨⟨?_, ?_, ?_⟩, ⟨?_, ?_, ?_⟩⟩
  · intro tr b1 hw
    obtain ⟨k, hk, hfull, _⟩ := produceAnItem_of_exit b wakes r1 r2 r3 mallocOk tr b1 hw
    have := k.isLt
    refine ⟨hfull, ?_, ?_, ?_⟩ <;> omega
  · intro idx hmem
    rcases hw : waitWhileFull b wakes with ⟨tr, _ | b1⟩
    · rw [produceAnItem_of_blocked b wakes r1 r2 r3 mallocOk tr hw] at hmem
      have hev := (waitWhileFull_spec wakes b).1
      rw [hw] at hev
      simp only [List.mem_cons] at hmem
      rcases hmem with h1 | h1
      · exact absurd h1 (by simp)
      · exact absurd (hev _ h1) (by simp [Event.isWaitLoop])
    · obtain ⟨k, _, _, hp⟩ := produceAnItem_of_exit b wakes r1 r2 r3 mallocOk tr b1 hw
      have hev := (waitWhileFull_spec wakes b).1
      rw [hw] at hev
      have hk := k.isLt
      rw [hp] at hmem
      have hidx : idx = (k.val : Int) := by
        cases mallocOk with
        | false =>
          simp only [Bool.false_eq_true, if_false, List.cons_append, List.mem_cons,
            List.mem_append, List.mem_singleton, List.not_mem_nil, or_false] at hmem
          rcases hmem with h1 | h1 | h1 | h1
          · exact absurd h1 (by simp)
          · exact absurd (hev _ h1) (by simp [Event.isWaitLoop])
          · exact absurd h1 (by simp)
          · exact absurd h1 (by simp)
        | true =>
          simp only [if_true, List.cons_append, List.mem_cons,
            List.mem_append, List.mem_singleton, List.not_mem_nil, or_false] at hmem
          rcases hmem with h1 | (h1 | h1 | h1) | h1 | h1 | h1
          · exact absurd h1 (by simp)
          · exact absurd (hev _ h1) (by simp [Event.isWaitLoop])
          · exact absurd h1 (by simp)
          · exact absurd h1 (by simp)
          · exact Event.insert.inj h1
          · exact absurd h1 (by simp)
          · exact absurd h1 (by simp)
      rw [hidx]
      constructor <;> omega
  · rcases hw : waitWhileFull b wakes with ⟨tr, _ | b1⟩
    · rw [produceAnItem_of_blocked b wakes r1 r2 r3 true tr hw]
      rfl
    · obtain ⟨k, _, _, hp⟩ := produceAnItem_of_exit b wakes r1 r2 r3 true tr b1 hw
      rw [hp]
      rfl
  · intro tr b1 hw
    obtain ⟨k, x, hk, hempty, hget, _⟩ := consumeAnItem_of_exit b wakes tr b1 hw
    have := k.isLt
    refine ⟨hempty, ?_, ?_, ?_, x, ?_⟩
    · omega
    · omega
    · omega
    · rw [hget, hk]
  · intro idx p hmem
    rcases hw : waitWhileEmpty b wakes with ⟨tr, _ | b1⟩
    · rw [consumeAnItem_of_blocked b wakes tr hw] at hmem
      have hev := (waitWhileEmpty_spec wakes b).1
      rw [hw] at hev
      simp only [List.mem_cons] at hmem
      rcases hmem with h1 | h1
      · exact absurd h1 (by simp)
      · exact absurd (hev _ h1) (by simp [Event.isWaitLoop])
    · obtain ⟨k, x, _, _, _, hp⟩ := consumeAnItem_of_exit b wakes tr b1 hw
      have hev := (waitWhileEmpty_spec wakes b).1
      rw [hw] at hev
      have hk := k.isLt
      rw [hp] at hmem
      have hidx : idx = (k.val : Int) ∧ p = some x := by
        simp only [List.cons_append, List.mem_cons,
          List.mem_append, List.mem_singleton, List.not_mem_nil, or_false] at hmem
        rcases hmem with h1 | (h1 | h1 | h1 | h1 | h1) | h1 | h1 | h1
        · exact absurd h1 (by simp)
        · exact absurd (hev _ h1) (by simp [Event.isWaitLoop])
        · exact Event.get.inj h1
        · exact absurd h1 (by simp)
        · exact absurd h1 (by simp)
        · exact absurd h1 (by simp)
        · exact absurd h1 (by simp)
        · exact absurd h1 (by simp)
        · exact absurd h1 (by simp)
      rw [hidx.1, hidx.2]
      refine ⟨by omega, by omega, by simp⟩
  · rcases hw : waitWhileEmpty b wakes with ⟨tr, _ | b1⟩
    · rw [consumeAnItem_of_blocked b wakes tr hw]
      rfl
    · obtain ⟨k, x, _, _, _, hp⟩ := consumeAnItem_of_exit b wakes tr b1 hw
      rw [hp]
      rfl

/-- A producer that finds the buffer full and is woken twice, the first time spuriously, and a consumer that finds it empty and is woken twice: slot 1 is filled, slot 0 is read. -/
theorem precondition_branch_unreachable_witness :
    ((∃ tr b1, waitWhileFull fullBuf [fullBuf, sampleBuf] = (tr, some b1) ∧
        isBufFull b1 = false ∧ 0 ≤ returnEmptyIndex b1 ∧ returnEmptyIndex b1 ≤ 31 ∧
        returnEmptyIndex b1 ≠ -1) ∧
      (Event.insert 1 ∈ (produceAnItem fullBuf [fullBuf, sampleBuf] 0 0 0 true).1 ∧
        (0 : Int) ≤ 1 ∧ (1 : Int) ≤ 31) ∧
      (produceAnItem fullBuf [fullBuf, sampleBuf] 0 0 0 true).2.isUndefined = false) ∧
    ((∃ tr b1, waitWhileEmpty emptyBuf [emptyBuf, sampleBuf] = (tr, some b1) ∧
        isBufEmpty b1 = false ∧ 0 ≤ returnFullIndex b1 ∧ returnFullIndex b1 ≤ 31 ∧
        returnFullIndex b1 ≠ -1 ∧ ∃ x, getItem b1 = some (returnFullIndex b1, some x)) ∧
      (Event.get 0 (some ⟨5, 3⟩) ∈ (consumeAnItem emptyBuf [emptyBuf, sampleBuf]).1 ∧
        (0 : Int) ≤ 0 ∧ (0 : Int) ≤ 31 ∧ (some ⟨5, 3⟩ : Option item) ≠ none) ∧
      (consumeAnItem emptyBuf [emptyBuf, sampleBuf]).2.isUndefined = false) :=
  ⟨⟨⟨_, _, rfl,
        (precondition_branch_unreachable fullBuf [fullBuf, sampleBuf] 0 0 0 true).1.1 _ _ rfl⟩,
      ⟨by decide,
        (precondition_branch_unreachable fullBuf [fullBuf, sampleBuf] 0 0 0 true).1.2.1 1
          (by decide)⟩,
      (precondition_branch_unreachable fullBuf [fullBuf, sampleBuf] 0 0 0 true).1.2.2⟩,
    ⟨⟨_, _, rfl,
        (precondition_branch_unreachable emptyBuf [emptyBuf, sampleBuf] 0 0 0 true).2.1 _ _ rfl⟩,
      ⟨by decide,
        (precondition_branch_unreachable emptyBuf [emptyBuf, sampleBuf] 0 0 0 true).2.2.1 0
          (some ⟨5, 3⟩) (by decide)⟩,
      (precondition_branch_unreachable emptyBuf [emptyBuf, sampleBuf] 0 0 0 true).2.2.2⟩⟩

/-! ## Lemmas on buffers with a known lowest slot -/

theorem buffer.ext_items (b c : buffer) (h : ∀ j : Fin 32, b.items j = c.items j) : b = c := by
  cases b
  cases c
  congr
  exact funext h

theorem initializeBuffer_eq (b : buffer) : initializeBuffer b = emptyBuf :=
  buffer.ext_items _ _ (fun j => initializeBuffer_items b j)

theorem isBufFull_of_vacant (b : buffer) (k : Fin 32) (hk : b.items k = none) :
    isBufFull b = false := by
  cases hf : isBufFull b with
  | false => rfl
  | true => exact absurd hk ((isBufFull_eq_true_iff b).mp hf k)

theorem isBufEmpty_of_occupied (b : buffer) (k : Fin 32) (hk : b.items k ≠ none) :
    isBufEmpty b = false := by
  cases he : isBufEmpty b with
  | false => rfl
  | true => exact absurd ((isBufEmpty_eq_true_iff b).mp he k) hk

/-- `returnEmptyIndex` is `k` when slot `k` is vacant and every lower slot is occupied. -/
theorem returnEmptyIndex_eq (b : buffer) (k : Fin 32) (hk : b.items k = none)
    (hlow : ∀ j : Fin 32, j < k → b.items j ≠ none) : returnEmptyIndex b = (k.val : Int) := by
  obtain ⟨k', hk', hkn', hlow'⟩ := returnEmptyIndex_of_not_full b (isBufFull_of_vacant b k hk)
  have hkk : k' = k := by
    rcases lt_trichotomy k' k with h | h | h
    · exact absurd hkn' (hlow k' h)
    · exact h
    · exact absurd hk (hlow' k h)
  rw [hk', hkk]

/-- `returnFullIndex` is `k` when slot `k` is occupied and every lower slot is vacant. -/
theorem returnFullIndex_eq (b : buffer) (k : Fin 32) (hk : b.items k ≠ none)
    (hlow : ∀ j : Fin 32, j < k → b.items j = none) : returnFullIndex b = (k.val : Int) := by
  obtain ⟨k', hk', hkn', hlow'⟩ :=
    returnFullIndex_of_not_empty b (isBufEmpty_of_occupied b k hk)
  have hkk : k' = k := by
    rcases lt_trichotomy k' k with h | h | h
    · exact absurd (hlow k' h) hkn'
    · exact h
    · exact absurd (hlow' k h) hk
  rw [hk', hkk]

theorem returnFullIndexFrom_all_vacant (b : buffer) (hall : ∀ j : Fin 32, b.items j = none) :
    ∀ (n i : Nat) (h : i + n = 32), returnFullIndexFrom b n i h = -1 := by
  intro n
  induction n with
  | zero =>
    intro i h
    rfl
  | succ n ih =>
    intro i h
    unfold returnFullIndexFrom
    simp only [hall, ne_eq, not_true_eq_false, if_false]
    exact ih (i + 1) (by omega)

theorem returnEmptyIndexFrom_all_occupied (b : buffer) (hall : ∀ j : Fin 32, b.items j ≠ none) :
    ∀ (n i : Nat) (h : i + n = 32), returnEmptyIndexFrom b n i h = -1 := by
  intro n
  induction n with
  | zero =>
    intro i h
    rfl
  | succ n ih =>
    intro i h
    unfold returnEmptyIndexFrom
    simp only [hall, if_false]
    exact ih (i + 1) (by omega)

/-- `addRandomItem` writes slot `k` when slot `k` is vacant and every lower slot occupied. -/
theorem addRandomItem_at (b : buffer) (x : Option item) (k : Fin 32) (hk : b.items k = none)
    (hlow : ∀ j : Fin 32, j < k → b.items j ≠ none) :
    addRandomItem x b = some ⟨Function.update b.items k x⟩ := by
  unfold addRandomItem
  simp only [returnEmptyIndex_eq b k hk hlow]
  exact buffer.write_coe b k x

/-- The consume step takes slot `k` when slot `k` is occupied and every lower slot vacant. -/
theorem consumeStep_at (b : buffer) (x : item) (k : Fin 32) (hk : b.items k = some x)
    (hlow : ∀ j : Fin 32, j < k → b.items j = none) :
    consumeStep b = some (some x, ⟨Function.update b.items k none⟩) := by
  have hne : b.items k ≠ none := by
    rw [hk]
    exact Option.some_ne_none x
  unfold consumeStep getItem removeItem
  simp only [returnFullIndex_eq b k hne hlow, buffer.read_coe, buffer.write_coe, hk]

/-! ## Initialisation -/

/-- C19: whatever the buffer held before, `initializeBuffer` leaves all 32 slots vacant;
afterwards `isBufEmpty` returns true, `isBufFull` returns false, `returnEmptyIndex` returns
0 and `returnFullIndex` returns -1. -/
theorem initializeBuffer_all_vacant (b0 : buffer) :
    (∀ j : Fin 32, (initializeBuffer b0).items j = none) ∧
    isBufEmpty (initializeBuffer b0) = true ∧
    isBufFull (initializeBuffer b0) = false ∧
    returnEmptyIndex (initializeBuffer b0) = 0 ∧
    returnFullIndex (initializeBuffer b0) = -1 := by
  have hall := initializeBuffer_items b0
  refine ⟨hall, (isBufEmpty_eq_true_iff _).mpr hall, isBufFull_of_vacant _ 0 (hall 0), ?_, ?_⟩
  · have h := returnEmptyIndex_eq (initializeBuffer b0) 0 (hall 0)
      (fun j hj => absurd hj (Fin.not_lt_zero j))
    simpa using h
  · exact returnFullIndexFrom_all_vacant _ hall 32 0 rfl

/-! ## Ranges of the random values -/

/-- C14: for every value `r` that `rand()` can return, `0 ≤ r ≤ RAND_MAX`, `itemFirstVal`
lies in 0..10, `itemSecondVal` in 2..9 and `producerVal` in 3..7; hence every item built by
`createRandomItem` has `randomNum` in 0..10 and `waitTime` in 2..9. -/
theorem random_values_in_range (RAND_MAX r r2 r3 : Int)
    (hr : 0 ≤ r ∧ r ≤ RAND_MAX) (hr2 : 0 ≤ r2 ∧ r2 ≤ RAND_MAX) (hr3 : 0 ≤ r3 ∧ r3 ≤ RAND_MAX) :
    (0 ≤ itemFirstVal r ∧ itemFirstVal r ≤ 10) ∧
    (2 ≤ itemSecondVal r ∧ itemSecondVal r ≤ 9) ∧
    (3 ≤ producerVal r ∧ producerVal r ≤ 7) ∧
    (∃ i1 : item, createRandomItem true r2 r3 = some i1) ∧
    ∀ (mallocOk : Bool) (i1 : item), createRandomItem mallocOk r2 r3 = some i1 →
      (0 ≤ i1.randomNum ∧ i1.randomNum ≤ 10) ∧ (2 ≤ i1.waitTime ∧ i1.waitTime ≤ 9) := by
  refine ⟨?_, ?_, ?_, ⟨_, rfl⟩, ?_⟩
  · unfold itemFirstVal
    rw [Int.tmod_eq_emod hr.1 (by decide)]
    omega
  · unfold itemSecondVal
    rw [Int.tmod_eq_emod hr.1 (by decide)]
    omega
  · unfold producerVal
    rw [Int.tmod_eq_emod hr.1 (by decide)]
    omega
  · intro mallocOk i1 hi
    cases mallocOk with
    | false => simp [createRandomItem] at hi
    | true =>
      simp only [createRandomItem, if_true, Option.some.injEq] at hi
      rw [← hi]
      simp only [itemFirstVal, itemSecondVal]
      rw [Int.tmod_eq_emod hr2.1 (by decide), Int.tmod_eq_emod hr3.1 (by decide)]
      omega

/-- The three functions on the largest value of a 31-bit `rand()`. -/
theorem random_values_in_range_witness :
    ((0 : Int) ≤ 2147483647 ∧ (2147483647 : Int) ≤ 2147483647) ∧
    (0 ≤ itemFirstVal 2147483647 ∧ itemFirstVal 2147483647 ≤ 10) ∧
    (2 ≤ itemSecondVal 2147483647 ∧ itemSecondVal 2147483647 ≤ 9) ∧
    (3 ≤ producerVal 2147483647 ∧ producerVal 2147483647 ≤ 7) ∧
    createRandomItem true 0 2147483647 = some ⟨0, 9⟩ ∧
    ((0 : Int) ≤ (⟨0, 9⟩ : item).randomNum ∧ (⟨0, 9⟩ : item).randomNum ≤ 10) ∧
    ((2 : Int) ≤ (⟨0, 9⟩ : item).waitTime ∧ (⟨0, 9⟩ : item).waitTime ≤ 9) :=
  ⟨by decide,
    (random_values_in_range 2147483647 2147483647 0 2147483647 (by decide) (by decide)
      (by decide)).1,
    (random_values_in_range 2147483647 2147483647 0 2147483647 (by decide) (by decide)
      (by decide)).2.1,
    (random_values_in_range 2147483647 2147483647 0 2147483647 (by decide) (by decide)
      (by decide)).2.2.1,
    by decide,
    (random_values_in_range 2147483647 2147483647 0 2147483647 (by decide) (by decide)
      (by decide)).2.2.2.2 true ⟨0, 9⟩ (by decide)⟩

/-! ## Runs that fill and drain the buffer in order -/

theorem windowBuf_zero_nil : windowBuf 0 [] = emptyBuf :=
  buffer.ext_items _ _ (fun j => by simp [windowBuf, emptyBuf])

theorem windowBuf_length (xs : List item) : windowBuf xs.length xs = emptyBuf := by
  apply buffer.ext_items
  intro j
  by_cases h : j.val < xs.length
  · simp [windowBuf, emptyBuf, h]
  · have h2 : xs.length ≤ j.val := by omega
    simp [windowBuf, emptyBuf, h, List.getElem?_eq_none h2]

theorem addRandomItem_windowBuf (ys : List item) (x : item) (h : ys.length < 32) :
    addRandomItem (some x) (windowBuf 0 ys) = some (windowBuf 0 (ys ++ [x])) := by
  have hk : (windowBuf 0 ys).items ⟨ys.length, h⟩ = none := by
    simp [windowBuf]
  have hlow : ∀ j : Fin 32, j < ⟨ys.length, h⟩ → (windowBuf 0 ys).items j ≠ none := by
    intro j hj
    have hj2 : j.val < ys.length := hj
    simp [windowBuf, List.getElem?_eq_getElem hj2]
  rw [addRandomItem_at _ _ _ hk hlow]
  congr 1
  apply buffer.ext_items
  intro j
  by_cases hjk : j = ⟨ys.length, h⟩
  · subst hjk
    simp [windowBuf]
  · have hne : j.val ≠ ys.length := fun e => hjk (Fin.ext e)
    change Function.update (windowBuf 0 ys).items ⟨ys.length, h⟩ (some x) j = _
    rw [Function.update_noteq hjk]
    simp only [windowBuf, Nat.not_lt_zero, if_false]
    rcases Nat.lt_or_gt_of_ne hne with h1 | h1
    · rw [List.getElem?_append_left h1]
    · rw [List.getElem?_eq_none (by omega), List.getElem?_eq_none (by simp; omega)]

theorem consumeStep_windowBuf (m : Nat) (xs : List item) (hm : m < xs.length)
    (hlen : xs.length ≤ 32) :
    consumeStep (windowBuf m xs) = some (some (xs.get ⟨m, hm⟩), windowBuf (m + 1) xs) := by
  have hm32 : m < 32 := by omega
  have hk : (windowBuf m xs).items ⟨m, hm32⟩ = some (xs.get ⟨m, hm⟩) := by
    simp [windowBuf, List.getElem?_eq_getElem hm]
  have hlow : ∀ j : Fin 32, j < ⟨m, hm32⟩ → (windowBuf m xs).items j = none := by
    intro j hj
    have hj2 : j.val < m := hj
    simp [windowBuf, hj2]
  rw [consumeStep_at _ _ _ hk hlow]
  congr 2
  apply buffer.ext_items
  intro j
  by_cases hjk : j = ⟨m, hm32⟩
  · subst hjk
    simp [windowBuf]
  · have hne : j.val ≠ m := fun e => hjk (Fin.ext e)
    change Function.update (windowBuf m xs).items ⟨m, hm32⟩ none j = _
    rw [Function.update_noteq hjk]
    simp only [windowBuf]
    by_cases h1 : j.val < m
    · have h2 : j.val < m + 1 := by omega
      simp [h1, h2]
    · have h2 : ¬ j.val < m + 1 := by omega
      simp [h1, h2]

theorem step_produce_windowBuf (ys ins ret : List item) (x : item) (h : ys.length < 32) :
    step ⟨windowBuf 0 ys, ins, ret⟩ (Op.produce x) =
      some ⟨windowBuf 0 (ys ++ [x]), ins ++ [x], ret⟩ := by
  have hf : isBufFull (windowBuf 0 ys) = false :=
    isBufFull_of_vacant _ ⟨ys.length, h⟩ (by simp [windowBuf])
  simp [step, hf, addRandomItem_windowBuf ys x h]

theorem step_consume_windowBuf (m : Nat) (xs ins ret : List item) (hm : m < xs.length)
    (hlen : xs.length ≤ 32) :
    step ⟨windowBuf m xs, ins, ret⟩ Op.consume =
      some ⟨windowBuf (m + 1) xs, ins, ret ++ [xs.get ⟨m, hm⟩]⟩ := by
  have he : isBufEmpty (windowBuf m xs) = false :=
    isBufEmpty_of_occupied _ ⟨m, by omega⟩ (by simp [windowBuf, List.getElem?_eq_getElem hm])
  simp [step, he, consumeStep_windowBuf m xs hm hlen]

/-- Insertions into a buffer filled in order extend it in order. -/
theorem run_produce_windowBuf : ∀ (xs ys ins ret : List item),
    ys.length + xs.length ≤ 32 →
    run ⟨windowBuf 0 ys, ins, ret⟩ (xs.map Op.produce) =
      some ⟨windowBuf 0 (ys ++ xs), ins ++ xs, ret⟩ := by
  intro xs
  induction xs with
  | nil =>
    intro ys ins ret _
    simp [run]
  | cons x xs ih =>
    intro ys ins ret h
    simp only [List.length_cons] at h
    simp only [List.map_cons, run]
    rw [step_produce_windowBuf ys ins ret x (by omega)]
    simp only
    rw [ih (ys ++ [x]) (ins ++ [x]) ret (by simp; omega)]
    simp

/-- Consume steps on a buffer filled in order return its items in order. -/
theorem run_consume_windowBuf (xs ins : List item) (hlen : xs.length ≤ 32) :
    ∀ (n m : Nat) (ret : List item), m + n ≤ xs.length →
    run ⟨windowBuf m xs, ins, ret⟩ (List.replicate n Op.consume) =
      some ⟨windowBuf (m + n) xs, ins, ret ++ (xs.drop m).take n⟩ := by
  intro n
  induction n with
  | zero =>
    intro m ret _
    simp [run]
  | succ n ih =>
    intro m ret h
    have hm : m < xs.length := by omega
    simp only [List.replicate_succ, run]
    rw [step_consume_windowBuf m xs ins ret hm hlen]
    simp only
    rw [ih (m + 1) _ (by omega)]
    have hd : List.drop m xs = xs.get ⟨m, hm⟩ :: List.drop (m + 1) xs := by
      rw [List.get_eq_getElem]
      exact List.drop_eq_getElem_cons hm
    rw [hd, List.take_succ_cons]
    simp [Nat.add_assoc, Nat.add_comm 1 n]

theorem run_append_some : ∀ (l1 l2 : List Op) (s s1 s2 : RunState),
    run s l1 = some s1 → run s1 l2 = some s2 → run s (l1 ++ l2) = some s2 := by
  intro l1
  induction l1 with
  | nil =>
    intro l2 s s1 s2 h1 h2
    simp only [run, Option.some.injEq] at h1
    rw [h1]
    exact h2
  | cons op l1 ih =>
    intro l2 s s1 s2 h1 h2
    simp only [List.cons_append]
    unfold run at h1
    unfold run
    cases hs : step s op with
    | none => simp [hs] at h1
    | some s' =>
      simp only [hs] at h1
      simp only
      exact ih l2 s' s1 s2 h1 h2

theorem start_eq (b0 : buffer) : start b0 = ⟨windowBuf 0 [], [], []⟩ := by
  unfold start
  rw [initializeBuffer_eq, windowBuf_zero_nil]

/-- Filling the initialised buffer with at most 32 items and then draining it returns the
items in insertion order and leaves every slot vacant. -/
theorem run_fill_drain (b0 : buffer) (xs : List item) (h : xs.length ≤ 32) :
    run (start b0) (xs.map Op.produce ++ List.replicate xs.length Op.consume) =
      some ⟨emptyBuf, xs, xs⟩ := by
  have h1 := run_produce_windowBuf xs [] [] [] (by simpa using h)
  have h2 := run_consume_windowBuf xs xs h xs.length 0 [] (by omega)
  simp only [List.nil_append, Nat.zero_add, List.drop_zero, List.take_length,
    windowBuf_length] at h1 h2
  rw [start_eq]
  exact run_append_some _ _ _ _ _ h1 h2

/-! ## Scenarios -/

/-- C11: the full-buffer scenario at the capacity 32 of the code. From the initialised
buffer, 32 produce steps with items `x0 … x31` fill the slots in that order and make
`isBufFull` true, so that a further produce step is not taken and `produceAnItem` blocks;
the next consume step returns `x0` and vacates slot 0; a produce step of `y` then gives
`[y, x1, …, x31]`: the lowest vacant index wins. -/
theorem full_buffer_scenario (b0 : buffer) (xs : List item) (hlen : xs.length = 32)
    (y : item) (r1 r2 r3 : Int) (mallocOk : Bool) :
    ∃ s1 s2 s3, run (start b0) (xs.map Op.produce) = some s1 ∧
      (∀ i : Fin 32, s1.buf.items i = xs[i.val]?) ∧
      isBufFull s1.buf = true ∧
      step s1 (Op.produce y) = none ∧
      (produceAnItem s1.buf [] r1 r2 r3 mallocOk).2.isBlocked = true ∧
      step s1 Op.consume = some s2 ∧
      s2.returned = xs.take 1 ∧
      s2.buf.items 0 = none ∧ (∀ i : Fin 32, i ≠ 0 → s2.buf.items i = xs[i.val]?) ∧
      step s2 (Op.produce y) = some s3 ∧
      s3.buf.items 0 = some y ∧ (∀ i : Fin 32, i ≠ 0 → s3.buf.items i = xs[i.val]?) := by
  have h1 := run_produce_windowBuf xs [] [] [] (by simp [hlen])
  simp only [List.nil_append] at h1
  have hpos : 0 < xs.length := by omega
  have hfull : isBufFull (windowBuf 0 xs) = true := by
    rw [isBufFull_eq_true_iff]
    intro j
    have hj : j.val < xs.length := by
      have := j.isLt
      omega
    simp [windowBuf, List.getElem?_eq_getElem hj]
  have h2 := step_consume_windowBuf 0 xs xs [] hpos (by omega)
  have hk : (windowBuf (0 + 1) xs).items 0 = none := by
    simp [windowBuf]
  have hadd := addRandomItem_at (windowBuf (0 + 1) xs) (some y) 0 hk
    (fun j hj => absurd hj (Fin.not_lt_zero j))
  have hrest : ∀ i : Fin 32, i ≠ 0 → (windowBuf (0 + 1) xs).items i = xs[i.val]? := by
    intro i hi
    have hi2 : ¬ i.val < 0 + 1 := by
      intro hlt
      exact hi (Fin.ext (by simp only [Fin.val_zero]; omega))
    simp only [windowBuf, hi2, if_false]
  refine ⟨⟨windowBuf 0 xs, xs, []⟩, _, ⟨⟨Function.update (windowBuf (0 + 1) xs).items 0 (some y)⟩,
    xs ++ [y], [] ++ [xs.get ⟨0, hpos⟩]⟩, ?_, ?_, hfull, ?_, ?_, h2, ?_, hk, hrest, ?_, ?_, ?_⟩
  · rw [start_eq]
    exact h1
  · intro i
    simp [windowBuf]
  · simp [step, hfull]
  · simp [produceAnItem, waitWhileFull, hfull, Outcome.isBlocked]
  · cases xs with
    | nil => simp at hpos
    | cons a t => simp
  · simp [step, isBufFull_of_vacant _ 0 hk, hadd]
  · simp
  · intro i hi
    simp only [Function.update_noteq hi]
    exact hrest i hi

/-- The scenario with 32 different items and the item `{1,2}` inserted last. -/
theorem full_buffer_scenario_witness :
    sampleItems.length = 32 ∧
    ∃ s1 s2 s3, run (start sampleBuf) (sampleItems.map Op.produce) = some s1 ∧
      (∀ i : Fin 32, s1.buf.items i = sampleItems[i.val]?) ∧
      isBufFull s1.buf = true ∧
      step s1 (Op.produce ⟨1, 2⟩) = none ∧
      (produceAnItem s1.buf [] 0 0 0 true).2.isBlocked = true ∧
      step s1 Op.consume = some s2 ∧
      s2.returned = sampleItems.take 1 ∧
      s2.buf.items 0 = none ∧
      (∀ i : Fin 32, i ≠ 0 → s2.buf.items i = sampleItems[i.val]?) ∧
      step s2 (Op.produce ⟨1, 2⟩) = some s3 ∧
      s3.buf.items 0 = some ⟨1, 2⟩ ∧
      (∀ i : Fin 32, i ≠ 0 → s3.buf.items i = sampleItems[i.val]?) :=
  ⟨by decide, full_buffer_scenario sampleBuf sampleItems (by decide) ⟨1, 2⟩ 0 0 0 true⟩

/-- C12: round trip on the empty buffer. On the initialised buffer `isBufEmpty` is true,
so a consume step is not taken and `consumeAnItem` blocks; a produce step of `x` followed
by a consume step returns exactly `x` and leaves the buffer empty again, every slot equal
to its initial value. -/
theorem round_trip_on_empty (b0 : buffer) (x : item) :
    isBufEmpty (initializeBuffer b0) = true ∧
    step (start b0) Op.consume = none ∧
    (consumeAnItem (initializeBuffer b0) []).2.isBlocked = true ∧
    ∃ s, run (start b0) [Op.produce x, Op.consume] = some s ∧
      s.inserted = [x] ∧ s.returned = [x] ∧ isBufEmpty s.buf = true ∧
      ∀ j : Fin 32, s.buf.items j = (initializeBuffer b0).items j := by
  have hempty : isBufEmpty (initializeBuffer b0) = true :=
    (isBufEmpty_eq_true_iff _).mpr (initializeBuffer_items b0)
  refine ⟨hempty, ?_, ?_, ⟨emptyBuf, [x], [x]⟩, ?_, rfl, rfl, ?_, ?_⟩
  · simp [step, start, hempty]
  · simp [consumeAnItem, waitWhileEmpty, hempty, Outcome.isBlocked]
  · exact run_fill_drain b0 [x] (by simp)
  · exact (isBufEmpty_eq_true_iff _).mpr (fun _ => rfl)
  · intro j
    rw [initializeBuffer_items]
    rfl

/-- C18: without interleaving the buffer is FIFO. For every `k` from 0 to 32 and every list
of `k` items, `k` produce steps followed by `k` consume steps, run from the initialised
buffer, return the items in exactly their insertion order and leave the buffer empty. -/
theorem fifo_without_interleaving (b0 : buffer) (k : Nat) (xs : List item)
    (hk : k ≤ 32) (hlen : xs.length = k) :
    ∃ s, run (start b0) (xs.map Op.produce ++ List.replicate k Op.consume) = some s ∧
      s.inserted = xs ∧ s.returned = xs ∧ isBufEmpty s.buf = true ∧
      ∀ j : Fin 32, s.buf.items j = none := by
  subst hlen
  refine ⟨⟨emptyBuf, xs, xs⟩, run_fill_drain b0 xs hk, rfl, rfl, ?_, fun _ => rfl⟩
  exact (isBufEmpty_eq_true_iff _).mpr (fun _ => rfl)

/-- Three items inserted and then consumed come back in insertion order. -/
theorem fifo_without_interleaving_witness :
    3 ≤ 32 ∧ ([⟨5, 3⟩, ⟨7, 4⟩, ⟨1, 2⟩] : List item).length = 3 ∧
    ∃ s, run (start sampleBuf)
        (([⟨5, 3⟩, ⟨7, 4⟩, ⟨1, 2⟩] : List item).map Op.produce ++
          List.replicate 3 Op.consume) = some s ∧
      s.inserted = [⟨5, 3⟩, ⟨7, 4⟩, ⟨1, 2⟩] ∧ s.returned = [⟨5, 3⟩, ⟨7, 4⟩, ⟨1, 2⟩] ∧
      isBufEmpty s.buf = true ∧ ∀ j : Fin 32, s.buf.items j = none :=
  ⟨by decide, rfl,
    fifo_without_interleaving sampleBuf 3 [⟨5, 3⟩, ⟨7, 4⟩, ⟨1, 2⟩] (by decide) rfl⟩

/-- C13: the buffer is not FIFO. In the run produce `A`, produce `B`, consume, produce `C`,
consume from the initialised buffer, the first consume step returns `A` and the second
returns `C`, although `B` was inserted before `C`; `B` is still held in slot 1. When `B`
and `C` differ, the returned items are not the first insertions in order. -/
theorem not_fifo (b0 : buffer) (A B C : item) :
    ∃ s, run (start b0)
        [Op.produce A, Op.produce B, Op.consume, Op.produce C, Op.consume] = some s ∧
      s.inserted = [A, B, C] ∧ s.returned = [A, C] ∧
      s.buf.items 0 = none ∧ s.buf.items 1 = some B ∧
      (B ≠ C → s.returned ≠ s.inserted.take s.returned.length) := by
  rw [start_eq]
  refine ⟨⟨_, [A, B, C], [A, C]⟩, rfl, rfl, rfl, rfl, rfl, ?_⟩
  intro hne heq
  simp only [List.length_cons, List.length_nil, List.take_succ_cons, List.take_zero,
    List.cons.injEq, and_true, true_and] at heq
  exact hne heq.symm

/-- The run with the items `{5,3}`, `{7,4}`, `{1,2}`. -/
theorem not_fifo_witness :
    (⟨7, 4⟩ : item) ≠ ⟨1, 2⟩ ∧
    ∃ s, run (start sampleBuf)
        [Op.produce ⟨5, 3⟩, Op.produce ⟨7, 4⟩, Op.consume, Op.produce ⟨1, 2⟩, Op.consume]
          = some s ∧
      s.inserted = [⟨5, 3⟩, ⟨7, 4⟩, ⟨1, 2⟩] ∧ s.returned = [⟨5, 3⟩, ⟨1, 2⟩] ∧
      s.buf.items 0 = none ∧ s.buf.items 1 = some ⟨7, 4⟩ ∧
      s.returned ≠ s.inserted.take s.returned.length := by
  obtain ⟨s, h1, h2, h3, h4, h5, h6⟩ := not_fifo sampleBuf ⟨5, 3⟩ ⟨7, 4⟩ ⟨1, 2⟩
  exact ⟨by decide, s, h1, h2, h3, h4, h5, h6 (by decide)⟩

/-! ## Allocation failure -/

/-- C16, as stated, fails: with `malloc` returning NULL, `produceAnItem` on the empty buffer
sleeps and then stores through the NULL pointer in `createRandomItem`; the call ends in
undefined behaviour, not in a reported failure. -/
theorem allocation_failure_not_reported :
    createRandomItem false 0 0 = none ∧
    (produceAnItem emptyBuf [] 0 0 0 false).1 =
      [Event.mutexLock, Event.checkFull false, Event.print 3, Event.sleep 3] ∧
    (produceAnItem emptyBuf [] 0 0 0 false).2.isUndefined = true := by
  decide

/-- C16, amended: allocation failure is not checked. When `malloc` returns NULL,
`createRandomItem` stores the fields through the NULL pointer, which is undefined
behaviour, and no failure is reported: every execution of `produceAnItem` that leaves its
wait loop ends there, after the `sleep`, with the mutex still held. This is before
`addRandomItem` is called: no slot is written and nothing is inserted by the call. -/
theorem allocation_failure_unchecked (b : buffer) (wakes : List buffer) (r1 r2 r3 : Int) :
    createRandomItem false r2 r3 = none ∧
    (∀ idx, Event.insert idx ∉ (produceAnItem b wakes r1 r2 r3 false).1) ∧
    Event.mutexUnlock ∉ (produceAnItem b wakes r1 r2 r3 false).1 ∧
    ((produceAnItem b wakes r1 r2 r3 false).2.isBlocked = false →
      (produceAnItem b wakes r1 r2 r3 false).2.isUndefined = true ∧
      (produceAnItem b wakes r1 r2 r3 false).1.getLast? = some (Event.sleep (producerVal r1)) ∧
      holdsAfterTrace false (produceAnItem b wakes r1 r2 r3 false).1 = true) := by
  have hev := (waitWhileFull_spec wakes b).1
  have hex := (waitWhileFull_spec wakes b).2
  rcases hw : waitWhileFull b wakes with ⟨tr, _ | b1⟩
  · rw [hw] at hev
    rw [produceAnItem_of_blocked b wakes r1 r2 r3 false tr hw]
    refine ⟨rfl, ?_, ?_, ?_⟩
    · intro idx hmem
      simp only [List.mem_cons] at hmem
      rcases hmem with h1 | h1
      · exact absurd h1 (by simp)
      · exact absurd (hev _ h1) (by simp [Event.isWaitLoop])
    · intro hmem
      simp only [List.mem_cons] at hmem
      rcases hmem with h1 | h1
      · exact absurd h1 (by simp)
      · exact absurd (hev _ h1) (by simp [Event.isWaitLoop])
    · intro hnb
      simp [Outcome.isBlocked] at hnb
  · rw [hw] at hev hex
    have hheld : holdsAfterTrace true tr = true := (hex b1 rfl).2
    obtain ⟨k, _, _, hp⟩ := produceAnItem_of_exit b wakes r1 r2 r3 false tr b1 hw
    simp only [Bool.false_eq_true, if_false] at hp
    rw [hp]
    refine ⟨rfl, ?_, ?_, ?_⟩
    · intro idx hmem
      simp only [List.cons_append, List.mem_cons, List.mem_append, List.mem_singleton,
        List.not_mem_nil, or_false] at hmem
      rcases hmem with h1 | h1 | h1 | h1
      · exact absurd h1 (by simp)
      · exact absurd (hev _ h1) (by simp [Event.isWaitLoop])
      · exact absurd h1 (by simp)
      · exact absurd h1 (by simp)
    · intro hmem
      simp only [List.cons_append, List.mem_cons, List.mem_append, List.mem_singleton,
        List.not_mem_nil, or_false] at hmem
      rcases hmem with h1 | h1 | h1 | h1
      · exact absurd h1 (by simp)
      · exact absurd (hev _ h1) (by simp [Event.isWaitLoop])
      · exact absurd h1 (by simp)
      · exact absurd h1 (by simp)
    · intro _
      have hlock : holdsAfterTrace false (Event.mutexLock :: tr) = true := by
        simp only [holdsAfterTrace, holdsAfter]
        exact hheld
      refine ⟨rfl, ?_, ?_⟩
      · have hsplit : Event.mutexLock :: tr ++
            [Event.print (producerVal r1), Event.sleep (producerVal r1)] =
            (Event.mutexLock :: tr ++ [Event.print (producerVal r1)]) ++
              [Event.sleep (producerVal r1)] := by simp
        rw [hsplit, List.getLast?_concat]
      · rw [holdsAfterTrace_append, hlock]
        rfl

/-- A producer that finds the buffer full, is woken twice and then fails to allocate. -/
theorem allocation_failure_unchecked_witness :
    (produceAnItem fullBuf [fullBuf, sampleBuf] 0 0 0 false).2.isBlocked = false ∧
    (produceAnItem fullBuf [fullBuf, sampleBuf] 0 0 0 false).2.isUndefined = true ∧
    (produceAnItem fullBuf [fullBuf, sampleBuf] 0 0 0 false).1.getLast? =
      some (Event.sleep (producerVal 0)) ∧
    holdsAfterTrace false (produceAnItem fullBuf [fullBuf, sampleBuf] 0 0 0 false).1 = true :=
  ⟨by decide,
    (allocation_failure_unchecked fullBuf [fullBuf, sampleBuf] 0 0 0).2.2.2 (by decide)⟩

/-! ## Lemmas on the locking discipline -/

theorem lockDiscipline_append (l1 l2 : List Event) :
    ∀ h : Bool, lockDiscipline h (l1 ++ l2) =
      (lockDiscipline h l1 && lockDiscipline (holdsAfterTrace h l1) l2) := by
  induction l1 with
  | nil =>
    intro h
    simp [lockDiscipline, holdsAfterTrace]
  | cons e l1 ih =>
    intro h
    rw [List.cons_append, lockDiscipline, lockDiscipline, holdsAfterTrace, ih, Bool.and_assoc]

theorem threadTrace_append (t : Nat) (l1 l2 : List (Nat × Event)) :
    threadTrace t (l1 ++ l2) = threadTrace t l1 ++ threadTrace t l2 := by
  induction l1 with
  | nil => rfl
  | cons p l1 ih =>
    obtain ⟨u, e⟩ := p
    rw [List.cons_append, threadTrace, threadTrace]
    split
    · rw [ih, List.cons_append]
    · exact ih

theorem ownerAfter_append (l1 l2 : List (Nat × Event)) :
    ∀ (owner o : Option Nat), ownerAfter owner (l1 ++ l2) = some o →
      ∃ o1, ownerAfter owner l1 = some o1 ∧ ownerAfter o1 l2 = some o := by
  induction l1 with
  | nil =>
    intro owner o h
    exact ⟨owner, rfl, h⟩
  | cons p l1 ih =>
    intro owner o h
    obtain ⟨u, e⟩ := p
    simp only [List.cons_append, ownerAfter] at h
    simp only [ownerAfter]
    cases hms : mutexStep owner u e with
    | none => simp [hms] at h
    | some o2 =>
      simp only [hms] at h
      exact ih o2 o h

theorem allowed_of_slotAccess (e : Event) (locked : Bool) (ha : e.isSlotAccess = true)
    (hal : e.allowed locked = true) : locked = true := by
  cases e <;> simp_all [Event.isSlotAccess, Event.allowed]

/-- One event keeps the agreement between the owner of the mutex and the thread that holds
it by its own trace. -/
theorem mutexStep_agrees (owner o1 : Option Nat) (u : Nat) (e : Event) (loc : Nat → Bool)
    (hinv : ∀ t, loc t = true ↔ owner = some t) (hal : e.allowed (loc u) = true)
    (hms : mutexStep owner u e = some o1) (t : Nat) :
    (if t = u then holdsAfter (loc u) e else loc t) = true ↔ o1 = some t := by
  have hu := hinv u
  have ht := hinv t
  have hacq : (if owner = none then some (some u) else none) = some o1 →
      owner = none ∧ o1 = some u := by
    intro h
    by_cases ho : owner = none
    · simp only [ho, if_true, Option.some.injEq] at h
      exact ⟨ho, h.symm⟩
    · simp [ho] at h
  by_cases htu : t = u
  · subst htu
    simp only [if_true]
    cases e with
    | mutexLock =>
      obtain ⟨_, h2⟩ := hacq hms
      simp [holdsAfter, h2]
    | condWaitReturn =>
      obtain ⟨_, h2⟩ := hacq hms
      simp [holdsAfter, h2]
    | mutexUnlock =>
      simp only [mutexStep, Option.some.injEq] at hms
      simp [holdsAfter, ← hms]
    | condWaitEnter =>
      simp only [mutexStep, Option.some.injEq] at hms
      simp [holdsAfter, ← hms]
    | checkFull r => simp only [mutexStep, Option.some.injEq] at hms; rw [← hms]; exact ht
    | checkEmpty r => simp only [mutexStep, Option.some.injEq] at hms; rw [← hms]; exact ht
    | print v => simp only [mutexStep, Option.some.injEq] at hms; rw [← hms]; exact ht
    | sleep v => simp only [mutexStep, Option.some.injEq] at hms; rw [← hms]; exact ht
    | insert v => simp only [mutexStep, Option.some.injEq] at hms; rw [← hms]; exact ht
    | get v q => simp only [mutexStep, Option.some.injEq] at hms; rw [← hms]; exact ht
    | remove v => simp only [mutexStep, Option.some.injEq] at hms; rw [← hms]; exact ht
    | condSignal => simp only [mutexStep, Option.some.injEq] at hms; rw [← hms]; exact ht
  · simp only [htu, if_false]
    have hne : ¬ (some u : Option Nat) = some t := fun h => htu (Option.some.inj h).symm
    have hrel : loc u = true → (loc t = true ↔ (none : Option Nat) = some t) := by
      intro hl
      have ho : owner = some u := hu.mp hl
      rw [ht, ho]
      simp [hne]
    cases e with
    | mutexLock =>
      obtain ⟨h1, h2⟩ := hacq hms
      rw [ht, h1, h2]
      simp [hne]
    | condWaitReturn =>
      obtain ⟨h1, h2⟩ := hacq hms
      rw [ht, h1, h2]
      simp [hne]
    | mutexUnlock =>
      simp only [mutexStep, Option.some.injEq] at hms
      rw [← hms]
      exact hrel hal
    | condWaitEnter =>
      simp only [mutexStep, Option.some.injEq] at hms
      rw [← hms]
      exact hrel hal
    | checkFull r => simp only [mutexStep, Option.some.injEq] at hms; rw [← hms]; exact ht
    | checkEmpty r => simp only [mutexStep, Option.some.injEq] at hms; rw [← hms]; exact ht
    | print v => simp only [mutexStep, Option.some.injEq] at hms; rw [← hms]; exact ht
    | sleep v => simp only [mutexStep, Option.some.injEq] at hms; rw [← hms]; exact ht
    | insert v => simp only [mutexStep, Option.some.injEq] at hms; rw [← hms]; exact ht
    | get v q => simp only [mutexStep, Option.some.injEq] at hms; rw [← hms]; exact ht
    | remove v => simp only [mutexStep, Option.some.injEq] at hms; rw [← hms]; exact ht
    | condSignal => simp only [mutexStep, Option.some.injEq] at hms; rw [← hms]; exact ht

/-- In an execution the mutex admits, of threads that keep to the locking discipline, the
owner of the mutex is the thread that holds it by its own trace. -/
theorem owner_iff_holds : ∀ (pre : List (Nat × Event)) (owner : Option Nat) (loc : Nat → Bool),
    (∀ t, loc t = true ↔ owner = some t) →
    (∀ t, lockDiscipline (loc t) (threadTrace t pre) = true) →
    ∀ o, ownerAfter owner pre = some o →
      ∀ t, holdsAfterTrace (loc t) (threadTrace t pre) = true ↔ o = some t := by
  intro pre
  induction pre with
  | nil =>
    intro owner loc hinv _ o ho t
    simp only [ownerAfter, Option.some.injEq] at ho
    simp only [threadTrace, holdsAfterTrace]
    rw [← ho]
    exact hinv t
  | cons p rest ih =>
    intro owner loc hinv hdisc o ho t
    obtain ⟨u, e⟩ := p
    simp only [ownerAfter] at ho
    cases hms : mutexStep owner u e with
    | none => simp [hms] at ho
    | some o1 =>
      simp only [hms] at ho
      have hdu := hdisc u
      simp only [threadTrace, if_true, lockDiscipline, Bool.and_eq_true] at hdu
      have hinv1 := mutexStep_agrees owner o1 u e loc hinv hdu.1 hms
      have hdisc1 : ∀ t, lockDiscipline (if t = u then holdsAfter (loc u) e else loc t)
          (threadTrace t rest) = true := by
        intro t
        by_cases htu : t = u
        · subst htu
          simp only [if_true]
          exact hdu.2
        · have hdt := hdisc t
          have hut : ¬ u = t := fun h => htu h.symm
          simp only [threadTrace, hut, if_false] at hdt
          simp only [htu, if_false]
          exact hdt
      have h := ih o1 (fun t => if t = u then holdsAfter (loc u) e else loc t) hinv1 hdisc1 o ho t
      by_cases htu : t = u
      · subst htu
        simp only [if_true] at h
        simp only [threadTrace, if_true, holdsAfterTrace]
        exact h
      · have hut : ¬ u = t := fun h => htu h.symm
        simp only [htu, if_false] at h
        simp only [threadTrace, hut, if_false]
        exact h

theorem waitWhileFull_discipline : ∀ (wakes : List buffer) (b : buffer),
    lockDiscipline true (waitWhileFull b wakes).1 = true := by
  intro wakes
  induction wakes with
  | nil =>
    intro b
    unfold waitWhileFull
    by_cases hf : isBufFull b = true <;> simp [hf, lockDiscipline, Event.allowed, holdsAfter]
  | cons b' rest ih =>
    intro b
    unfold waitWhileFull
    by_cases hf : isBufFull b = true
    · simp [hf, lockDiscipline, Event.allowed, holdsAfter, ih b']
    · simp [hf, lockDiscipline, Event.allowed, holdsAfter]

theorem waitWhileEmpty_discipline : ∀ (wakes : List buffer) (b : buffer),
    lockDiscipline true (waitWhileEmpty b wakes).1 = true := by
  intro wakes
  induction wakes with
  | nil =>
    intro b
    unfold waitWhileEmpty
    by_cases hf : isBufEmpty b = true <;> simp [hf, lockDiscipline, Event.allowed, holdsAfter]
  | cons b' rest ih =>
    intro b
    unfold waitWhileEmpty
    by_cases hf : isBufEmpty b = true
    · simp [hf, lockDiscipline, Event.allowed, holdsAfter, ih b']
    · simp [hf, lockDiscipline, Event.allowed, holdsAfter]

/-- Every trace of `produceAnItem` keeps to the locking discipline. -/
theorem produceAnItem_discipline (b : buffer) (wakes : List buffer) (r1 r2 r3 : Int)
    (mallocOk : Bool) : lockDiscipline false (produceAnItem b wakes r1 r2 r3 mallocOk).1 = true := by
  have hd := waitWhileFull_discipline wakes b
  have hex := (waitWhileFull_spec wakes b).2
  rcases hw : waitWhileFull b wakes with ⟨tr, _ | b1⟩
  · rw [hw] at hd
    rw [produceAnItem_of_blocked b wakes r1 r2 r3 mallocOk tr hw]
    simp only [lockDiscipline, Event.allowed, holdsAfter, Bool.not_false, Bool.true_and]
    exact hd
  · rw [hw] at hd hex
    have hheld : holdsAfterTrace true tr = true := (hex b1 rfl).2
    obtain ⟨k, _, _, hp⟩ := produceAnItem_of_exit b wakes r1 r2 r3 mallocOk tr b1 hw
    have hd1 : lockDiscipline true tr = true := hd
    rw [hp]
    cases mallocOk <;>
      simp [lockDiscipline, lockDiscipline_append, holdsAfterTrace_append, holdsAfterTrace,
        Event.allowed, holdsAfter, hd1, hheld]

/-- Every trace of `consumeAnItem` keeps to the locking discipline. -/
theorem consumeAnItem_discipline (b : buffer) (wakes : List buffer) :
    lockDiscipline false (consumeAnItem b wakes).1 = true := by
  have hd := waitWhileEmpty_discipline wakes b
  have hex := (waitWhileEmpty_spec wakes b).2
  rcases hw : waitWhileEmpty b wakes with ⟨tr, _ | b1⟩
  · rw [hw] at hd
    rw [consumeAnItem_of_blocked b wakes tr hw]
    simp only [lockDiscipline, Event.allowed, holdsAfter, Bool.not_false, Bool.true_and]
    exact hd
  · rw [hw] at hd hex
    have hheld : holdsAfterTrace true tr = true := (hex b1 rfl).2
    obtain ⟨k, x, _, _, _, hp⟩ := consumeAnItem_of_exit b wakes tr b1 hw
    have hd1 : lockDiscipline true tr = true := hd
    rw [hp]
    simp [lockDiscipline, lockDiscipline_append, holdsAfterTrace_append, holdsAfterTrace,
      Event.allowed, holdsAfter, hd1, hheld]

/-! ## Lock discipline -/

/-- C15: lock discipline. In every interleaved execution that the mutex admits, of threads
each running `produceAnItem` or `consumeAnItem` (to its end or up to some point), every
read or write of a buffer slot happens while the acting thread owns the mutex, and by
their own traces the acting thread holds the mutex and no other thread does: no two calls
observe or mutate slot state concurrently. -/
theorem lock_discipline (sched : List (Nat × Event))
    (hthreads : ∀ u, ∃ rest,
      (∃ b wakes r1 r2 r3 mallocOk,
        threadTrace u sched ++ rest = (produceAnItem b wakes r1 r2 r3 mallocOk).1) ∨
      (∃ b wakes, threadTrace u sched ++ rest = (consumeAnItem b wakes).1))
    (hadm : ∃ o, ownerAfter none sched = some o) :
    ∀ pre t e post, sched = pre ++ (t, e) :: post → e.isSlotAccess = true →
      ownerAfter none pre = some (some t) ∧
      holdsAfterTrace false (threadTrace t pre) = true ∧
      ∀ u, u ≠ t → holdsAfterTrace false (threadTrace u pre) = false := by
  intro pre t e post hs hacc
  have hdisc : ∀ u, lockDiscipline false (threadTrace u sched) = true := by
    intro u
    obtain ⟨rest, h | h⟩ := hthreads u
    · obtain ⟨b, wakes, r1, r2, r3, m, h⟩ := h
      have hd := produceAnItem_discipline b wakes r1 r2 r3 m
      rw [← h, lockDiscipline_append, Bool.and_eq_true] at hd
      exact hd.1
    · obtain ⟨b, wakes, h⟩ := h
      have hd := consumeAnItem_discipline b wakes
      rw [← h, lockDiscipline_append, Bool.and_eq_true] at hd
      exact hd.1
  have hsplit : ∀ u, lockDiscipline false (threadTrace u pre) = true ∧
      lockDiscipline (holdsAfterTrace false (threadTrace u pre))
        (threadTrace u ((t, e) :: post)) = true := by
    intro u
    have hd := hdisc u
    rw [hs, threadTrace_append, lockDiscipline_append, Bool.and_eq_true] at hd
    exact hd
  obtain ⟨o, ho⟩ := hadm
  rw [hs] at ho
  obtain ⟨o1, ho1, _⟩ := ownerAfter_append pre ((t, e) :: post) none o ho
  have hagree := owner_iff_holds pre none (fun _ => false) (by simp)
    (fun u => (hsplit u).1) o1 ho1
  have hheld : holdsAfterTrace false (threadTrace t pre) = true := by
    have h2 := (hsplit t).2
    simp only [threadTrace, if_true, lockDiscipline, Bool.and_eq_true] at h2
    exact allowed_of_slotAccess e _ hacc h2.1
  have hown : o1 = some t := (hagree t).mp hheld
  refine ⟨by rw [ho1, hown], hheld, ?_⟩
  intro u hu
  cases hh : holdsAfterTrace false (threadTrace u pre) with
  | false => rfl
  | true =>
    have h3 : o1 = some u := (hagree u).mp hh
    rw [hown] at h3
    exact absurd (Option.some.inj h3).symm hu

/-- In `sampleSchedule` the consumer, thread 1, reads slot 0 with `getItem` while it owns
the mutex and the producer, thread 0, does not hold it. -/
theorem lock_discipline_witness :
    (∃ o, ownerAfter none sampleSchedule = some o) ∧
    ownerAfter none (sampleSchedule.take 12) = some (some 1) ∧
    holdsAfterTrace false (threadTrace 1 (sampleSchedule.take 12)) = true ∧
    ∀ u, u ≠ 1 → holdsAfterTrace false (threadTrace u (sampleSchedule.take 12)) = false := by
  have hthreads : ∀ u, ∃ rest,
      (∃ b wakes r1 r2 r3 mallocOk,
        threadTrace u sampleSchedule ++ rest = (produceAnItem b wakes r1 r2 r3 mallocOk).1) ∨
      (∃ b wakes, threadTrace u sampleSchedule ++ rest = (consumeAnItem b wakes).1) := by
    intro u
    by_cases h0 : u = 0
    · subst h0
      exact ⟨[], Or.inl ⟨emptyBuf, [], 0, 0, 0, true, by decide⟩⟩
    · by_cases h1 : u = 1
      · subst h1
        exact ⟨[], Or.inr ⟨emptyBuf, [oneItemBuf], by decide⟩⟩
      · have h0' : ¬ 0 = u := fun h => h0 h.symm
        have h1' : ¬ 1 = u := fun h => h1 h.symm
        refine ⟨(consumeAnItem emptyBuf []).1, Or.inr ⟨emptyBuf, [], ?_⟩⟩
        simp [sampleSchedule, threadTrace, h0', h1']
  exact ⟨⟨none, by decide⟩,
    lock_discipline sampleSchedule hthreads ⟨none, by decide⟩
      (sampleSchedule.take 12) 1 (Event.get 0 (some ⟨0, 2⟩)) (sampleSchedule.drop 13)
      (by decide) (by decide)⟩

/-! ## Lemmas on the loop of `main` -/

theorem waitWhileFull_of_not_full (b : buffer) (wakes : List buffer)
    (hf : isBufFull b = false) :
    waitWhileFull b wakes = ([Event.checkFull false], some b) := by
  cases wakes <;> simp [waitWhileFull, hf]

theorem waitWhileEmpty_of_not_empty (b : buffer) (wakes : List buffer)
    (he : isBufEmpty b = false) :
    waitWhileEmpty b wakes = ([Event.checkEmpty false], some b) := by
  cases wakes <;> simp [waitWhileEmpty, he]

/-- On a buffer whose slot 0 is vacant the producer does not wait and fills slot 0. -/
theorem produceAnItem_outcome_vacant (b : buffer) (r1 r2 r3 : Int) (h0 : b.items 0 = none) :
    (produceAnItem b [] r1 r2 r3 true).2 =
      Outcome.returned
        ⟨Function.update b.items 0 (some ⟨itemFirstVal r2, itemSecondVal r3⟩)⟩ := by
  have hw := waitWhileFull_of_not_full b [] (isBufFull_of_vacant b 0 h0)
  obtain ⟨k, hk, _, hp⟩ := produceAnItem_of_exit b [] r1 r2 r3 true _ b hw
  have h1 := returnEmptyIndex_eq b 0 h0 (fun j hj => absurd hj (Fin.not_lt_zero j))
  have hk0 : k = 0 := by
    apply Fin.ext
    rw [hk] at h1
    simp only [Fin.val_zero] at h1 ⊢
    omega
  rw [hp, hk0]
  simp

/-- On a buffer whose only occupied slot is slot 0 the consumer does not wait and vacates
slot 0. -/
theorem consumeAnItem_outcome_single (b : buffer) (h0 : b.items 0 ≠ none) :
    (consumeAnItem b []).2 = Outcome.returned ⟨Function.update b.items 0 none⟩ := by
  have hw := waitWhileEmpty_of_not_empty b [] (isBufEmpty_of_occupied b 0 h0)
  obtain ⟨k, x, hk, _, _, hp⟩ := consumeAnItem_of_exit b [] _ b hw
  have h1 := returnFullIndex_eq b 0 h0 (fun j hj => absurd hj (Fin.not_lt_zero j))
  have hk0 : k = 0 := by
    apply Fin.ext
    rw [hk] at h1
    simp only [Fin.val_zero] at h1 ⊢
    omega
  rw [hp, hk0]

/-- On the empty buffer the consumer waits. -/
theorem consumeAnItem_outcome_vacant (b : buffer) (hall : ∀ j : Fin 32, b.items j = none) :
    (consumeAnItem b []).2 = Outcome.blocked := by
  have he : isBufEmpty b = true := (isBufEmpty_eq_true_iff b).mpr hall
  simp [consumeAnItem, waitWhileEmpty, he]

theorem mainInv_init (b0 : buffer) : MainInv (mainInit b0) := by
  refine ⟨rfl, fun j _ => initializeBuffer_items b0 j, Or.inr (Or.inr ?_)⟩
  exact ⟨initializeBuffer_items b0 0, rfl, rfl, Or.inl rfl⟩

/-- Every scheduling step keeps the invariant. -/
theorem mainStep_inv (s s' : MainState) (m : Move) (hinv : MainInv s)
    (hstep : mainStep s m = some s') : MainInv s' := by
  obtain ⟨buf, pc, prod, waits, cr⟩ := s
  obtain ⟨hw, hrest, hcase⟩ := hinv
  simp only at hw hrest hcase
  cases m with
  | main =>
    cases pc with
    | createProducer =>
      simp only [mainStep, Option.some.injEq] at hstep
      subst hstep
      rcases hcase with ⟨_, _, h | h⟩ | ⟨_, _, h | h⟩ | ⟨h0, hp, hc, _⟩
      · exact absurd h.1 (by decide)
      · exact absurd h.1 (by decide)
      · exact absurd h.1 (by decide)
      · exact absurd h.1 (by decide)
      · refine ⟨hw, hrest, Or.inl ⟨h0, ?_, Or.inl ⟨rfl, hc⟩⟩⟩
        simp only [hp]
    | createConsumer =>
      simp only [mainStep, Option.some.injEq] at hstep
      subst hstep
      rcases hcase with ⟨h0, hp, _⟩ | ⟨h0, hp, _⟩ | ⟨_, _, _, h | h⟩
      · exact ⟨hw, hrest, Or.inl ⟨h0, hp, Or.inr ⟨rfl, rfl⟩⟩⟩
      · exact ⟨hw, hrest, Or.inr (Or.inl ⟨h0, hp, Or.inr ⟨rfl, rfl⟩⟩)⟩
      · exact absurd h (by decide)
      · exact absurd h (by decide)
    | joinConsumer =>
      cases cr with
      | true => simp [mainStep] at hstep
      | false =>
        simp only [mainStep, Bool.false_eq_true, if_false, Option.some.injEq] at hstep
        subst hstep
        rcases hcase with ⟨_, _, h | h⟩ | ⟨_, _, h | h⟩ | ⟨h0, hp, hc, _⟩
        · exact absurd h.1 (by decide)
        · exact absurd h.2 (by decide)
        · exact absurd h.1 (by decide)
        · exact absurd h.2 (by decide)
        · exact ⟨hw, hrest, Or.inr (Or.inr ⟨h0, hp, hc, Or.inl rfl⟩)⟩
  | producer r1 r2 r3 =>
    rcases hcase with ⟨h0, hp, hpc⟩ | ⟨_, hp, _⟩ | ⟨_, hp, _⟩
    · subst hp
      simp only [mainStep, Nat.succ_ne_zero, if_false, produceAnItem_outcome_vacant buf r1 r2 r3 h0,
        Option.some.injEq] at hstep
      subst hstep
      refine ⟨hw, ?_, Or.inr (Or.inl ⟨?_, rfl, hpc⟩)⟩
      · intro j hj
        simp only [Function.update_noteq hj]
        exact hrest j hj
      · simp
    · subst hp
      simp [mainStep] at hstep
    · subst hp
      simp [mainStep] at hstep
  | consumer =>
    cases cr with
    | false => simp [mainStep] at hstep
    | true =>
      rcases hcase with ⟨h0, hp, hpc⟩ | ⟨h0, hp, hpc⟩ | ⟨_, _, hc, _⟩
      · have hall : ∀ j : Fin 32, buf.items j = none := by
          intro j
          by_cases hj : j = 0
          · rw [hj]
            exact h0
          · exact hrest j hj
        simp only [mainStep, if_true, consumeAnItem_outcome_vacant buf hall,
          Option.some.injEq] at hstep
        subst hstep
        exact ⟨hw, hrest, Or.inl ⟨h0, hp, hpc⟩⟩
      · simp only [mainStep, if_true, consumeAnItem_outcome_single buf h0,
          Option.some.injEq] at hstep
        subst hstep
        have hpc2 : pc = MainPc.joinConsumer := by
          rcases hpc with h | h
          · exact absurd h.2 (by decide)
          · exact h.1
        refine ⟨hw, ?_, Or.inr (Or.inr ⟨?_, hp, rfl, Or.inr hpc2⟩)⟩
        · intro j hj
          simp only [Function.update_noteq hj]
          exact hrest j hj
        · simp
      · exact absurd hc (by decide)

theorem runMain_inv : ∀ (moves : List Move) (s s' : MainState), MainInv s →
    runMain s moves = some s' → MainInv s' := by
  intro moves
  induction moves with
  | nil =>
    intro s s' hinv h
    simp only [runMain, Option.some.injEq] at h
    rw [← h]
    exact hinv
  | cons m ms ih =>
    intro s s' hinv h
    unfold runMain at h
    cases hs : mainStep s m with
    | none => simp [hs] at h
    | some s1 =>
      simp only [hs] at h
      exact ih s1 s' (mainStep_inv s s1 m hinv hs) h

theorem occupied_le_one (b : buffer) (hrest : ∀ j : Fin 32, j ≠ 0 → b.items j = none) :
    occupied b ≤ 1 := by
  unfold occupied
  rw [Finset.sum_eq_single (0 : Fin 32)]
  · split <;> omega
  · intro j _ hj
    simp [hrest j hj]
  · intro h
    exact absurd (Finset.mem_univ _) h

/-! ## The orchestration of `main` -/

/-- C17: under the orchestration of `main`, one producer and one consumer thread per
iteration with the consumer joined before the next iteration, every reachable state has
at most one occupied slot, slot 0; so the buffer is never full, no producer ever entered
`pthread_cond_wait`, and `produceAnItem` started in a reachable state does not block. -/
theorem main_occupies_slot_zero_only (b0 : buffer) (moves : List Move) (s : MainState)
    (h : runMain (mainInit b0) moves = some s) :
    (∀ j : Fin 32, j ≠ 0 → s.buf.items j = none) ∧ occupied s.buf ≤ 1 ∧
    isBufFull s.buf = false ∧ s.producerWaits = 0 ∧
    ∀ wakes r1 r2 r3 mallocOk,
      (produceAnItem s.buf wakes r1 r2 r3 mallocOk).2.isBlocked = false := by
  obtain ⟨hw, hrest, _⟩ := runMain_inv moves (mainInit b0) s (mainInv_init b0) h
  have hfull : isBufFull s.buf = false := isBufFull_of_vacant s.buf 1 (hrest 1 (by decide))
  refine ⟨hrest, occupied_le_one s.buf hrest, hfull, hw, ?_⟩
  intro wakes r1 r2 r3 mallocOk
  obtain ⟨k, _, _, hp⟩ := produceAnItem_of_exit s.buf wakes r1 r2 r3 mallocOk _ s.buf
    (waitWhileFull_of_not_full s.buf wakes hfull)
  rw [hp]
  cases mallocOk <;> rfl

/-- The state after the first eight steps of `sampleMoves`, in which the producer of the
second iteration has inserted its item. -/
theorem main_occupies_slot_zero_only_witness :
    ∃ s, runMain (mainInit sampleBuf) (sampleMoves.take 8) = some s ∧
      s.buf.items 0 = some ⟨5, 8⟩ ∧
      (∀ j : Fin 32, j ≠ 0 → s.buf.items j = none) ∧ occupied s.buf ≤ 1 ∧
      isBufFull s.buf = false ∧ s.producerWaits = 0 ∧
      ∀ wakes r1 r2 r3 mallocOk,
        (produceAnItem s.buf wakes r1 r2 r3 mallocOk).2.isBlocked = false :=
  ⟨_, rfl, by decide, main_occupies_slot_zero_only sampleBuf (sampleMoves.take 8) _ rfl⟩

end Concurrency1
